import Mathlib

/-!
A shallow embedding of the pChop distributed symbolic-execution core
(`lib/Core/Executor.cpp`, `lib/Core/Searcher.cpp`,
`include/klee/ExecutionState.h`), restricted to the state-forking,
prefix-ranging, offloading, recovery and BFS-search logic.

Conventions of the embedding:
* machine pointers, instruction iterators, LLVM functions and memory objects
  are represented by `Nat` identifiers;
* `ref<Expr>` values are a small inductive `Expr`; `ConstantExpr` is the
  `Expr.const` constructor;
* `std::map` / `std::set` are association lists / duplicate-free lists with
  lookup, insert-or-assign and erase operations mirroring their semantics;
* executor-level mutation is explicit state passing over an `Exec` record;
  fresh `ExecutionState` allocations draw identifiers from `Exec.nextId`;
* C++ `assert` failures, fatal errors and undefined behaviour (a function
  falling off its end, unbounded scans) are modelled by an `Option` result
  being `none`;
* logging, MPI plumbing, statistics, the process tree, seeding and replay
  modes are elided: the modelled configuration is the default one (no seeds,
  no replay, no memory pressure, unlimited forks).
-/

namespace PChop

/-- Symbolic expressions (`ref<Expr>`).  `const n` is a `ConstantExpr`
(booleans are 0/1), `var` an opaque symbolic expression, `isZero` is
`Expr::createIsZero` applied to a non-constant argument. -/
inductive Expr where
  | const : Nat → Expr
  | var : Nat → Expr
  | isZero : Expr → Expr
  deriving DecidableEq, Repr

/-- `Expr::createIsZero`: folds on constants, otherwise builds an
`isZero` node. -/
def createIsZero : Expr → Expr
  | Expr.const n => Expr.const (if n = 0 then 1 else 0)
  | e => Expr.isZero e

/-- Is the expression a `ConstantExpr`? (`isa<ConstantExpr>`). -/
def Expr.isConst : Expr → Bool
  | Expr.const _ => true
  | _ => false

/-! ### Association-list operations mirroring `std::map` -/

/-- `std::map::find` (first matching key). -/
def lookupA {α β : Type} [DecidableEq α] : List (α × β) → α → Option β
  | [], _ => none
  | p :: rest, k => if p.1 = k then some p.2 else lookupA rest k

/-- `std::map::operator[] =`: assign, inserting the key if absent. -/
def setA {α β : Type} [DecidableEq α] : List (α × β) → α → β → List (α × β)
  | [], k, v => [(k, v)]
  | p :: rest, k, v => if p.1 = k then (k, v) :: rest else p :: setA rest k v

/-- `std::map::erase` by key (first matching entry). -/
def eraseA {α β : Type} [DecidableEq α] : List (α × β) → α → List (α × β)
  | [], _ => []
  | p :: rest, k => if p.1 = k then rest else p :: eraseA rest k

/-- `std::set::insert`: append if not already present (iteration order is
abstract; we model it as insertion order). -/
def insertSet {α : Type} [DecidableEq α] (l : List α) (x : α) : List α :=
  if x ∈ l then l else l ++ [x]

/-! ### `RecoveryInfo` and the recovery cache (`ExecutionState.h`) -/

/-- `struct RecoveryInfo`.  `snapshotStateId` stands for the
`ref<Snapshot>` member: the identifier of the snapshot's stored
`ExecutionState`. -/
structure RecoveryInfo where
  loadInst : Nat := 0
  loadAddr : Nat := 0
  loadSize : Nat := 0
  f : Nat := 0
  sliceId : Nat := 0
  snapshotStateId : Nat := 0
  snapshotIndex : Nat := 0
  subId : Nat := 0
  deriving DecidableEq, Repr

/-- `struct WrittenAddressInfo`. -/
structure WrittenAddressInfo where
  maxSize : Nat
  snapshotIndex : Nat
  deriving DecidableEq, Repr

/-- `ValuesCache = std::map<uint64_t, ref<Expr>>`; a stored `ref<Expr>`
may be the null reference (the "pending" marker), hence `Option Expr`. -/
abbrev ValuesCache := List (Nat × Option Expr)

/-- `RecoveryCache = std::map<std::pair<uint32_t,uint32_t>, ValuesCache>`. -/
abbrev RecoveryCache := List ((Nat × Nat) × ValuesCache)

/-! ### `ExecutionState` -/

/-- The fields of `class ExecutionState` used by the modelled code.
`typ` is the `NORMAL_STATE (1) | RECOVERY_STATE (2)` bitmask.  The
`prefixes` entries are `(prefix-characters, prefix-length)` pairs as in
`std::vector<std::pair<char*,int>>`. -/
structure EState where
  typ : Nat := 1
  suspendStatus : Bool := false
  blockingLoadStatus : Bool := false
  snapshots : List (Nat × Nat) := []
  recoveryState : Option Nat := none
  recoveredLoads : List Nat := []
  allocationRecord : Nat := 0
  guidingConstraints : List Expr := []
  writtenAddresses : List (Nat × WrittenAddressInfo) := []
  pendingRecoveryInfos : List RecoveryInfo := []
  recoveryCache : RecoveryCache := []
  exitInst : Nat := 0
  dependentState : Option Nat := none
  originatingState : Option Nat := none
  recoveryInfo : Option RecoveryInfo := none
  guidingAllocationRecord : Nat := 0
  level : Nat := 0
  priority : Nat := 0
  pc : Nat := 0
  prevPC : Nat := 0
  addressSpace : List (Nat × List (Nat × Expr)) := []
  constraints : List Expr := []
  depth : Nat := 0
  actDepth : Nat := 0
  prefixes : List (List Char × Nat) := []
  branchHist : List Char := []
  coveredNew : Bool := false
  forkDisabled : Bool := false
  deriving DecidableEq, Repr

namespace EState

/-- `ExecutionState::isNormalState`. -/
def isNormalState (s : EState) : Bool := s.typ &&& 1 ≠ 0

/-- `ExecutionState::isRecoveryState`. -/
def isRecoveryState (s : EState) : Bool := s.typ &&& 2 ≠ 0

/-- `ExecutionState::addConstraint`: append to the constraint manager
(canonicalization, implemented outside `src/`, is modelled from the spec
as an ordered list of boolean expressions), and record a guiding
constraint on a dependent-mode normal state. -/
def addConstraint (s : EState) (e : Expr) : EState :=
  let s := { s with constraints := s.constraints ++ [e] }
  if s.isNormalState && !s.isRecoveryState && !s.snapshots.isEmpty then
    { s with guidingConstraints := insertSet s.guidingConstraints e }
  else s

/-- `ExecutionState::updateRecoveredValue`:
`recoveryCache[(index, sliceId)][address] = expr`. -/
def updateRecoveredValue (s : EState) (index sliceId address : Nat)
    (expr : Option Expr) : EState :=
  let key := (index, sliceId)
  let valuesCache := (lookupA s.recoveryCache key).getD []
  { s with recoveryCache := setA s.recoveryCache key (setA valuesCache address expr) }

/-- `ExecutionState::getRecoveredValue`: `none` when the triple is not
cached; `some e` when it is (with `e = none` for the null "pending"
marker). -/
def getRecoveredValue (s : EState) (index sliceId address : Nat) :
    Option (Option Expr) :=
  match lookupA s.recoveryCache (index, sliceId) with
  | none => none
  | some valuesCache => lookupA valuesCache address

/-- `ExecutionState::addRecoveredAddress`. -/
def addRecoveredAddress (s : EState) (address : Nat) : EState :=
  { s with recoveredLoads := insertSet s.recoveredLoads address }

/-- `ExecutionState::shallIRange`: non-empty prefix list and some prefix
longer than the current depth. -/
def shallIRange (s : EState) : Bool :=
  if s.prefixes.length = 0 then false
  else s.prefixes.any (fun p => s.depth < p.2)

/-- `ExecutionState::branchToTake`.  Result `(r, forkAndSuspend)` with
`r = 0` take-true, `1` take-false, `2` fork; `none` models the
`assert(depth < prefixes[0].second)` failing or control falling off the
end of the function (prefix digit outside `{'0','1','2','3'}`).
The source compares `prefixes[x].first[depth]` with `'2'` and with `'3'`
at the same index conjunctively, a condition that can never hold, so the
two `assert(false)` statements guarding disagreement are dead code and
any disagreement immediately yields a fork. -/
def branchToTake (s : EState) : Option (Nat × Bool) :=
  match s.prefixes with
  | [] => none
  | p0 :: rest =>
    if s.depth < p0.2 then
      let d0 := p0.1.getD s.depth ' '
      if rest.any (fun p => p.1.getD s.depth ' ' ≠ d0) then
        some (2, false)
      else if d0 = '0' then some (0, true)
      else if d0 = '1' then some (1, true)
      else if d0 = '2' then some (0, false)
      else if d0 = '3' then some (1, false)
      else none
    else none

/-- `ExecutionState::removeFalsePrefixes`. -/
def removeFalsePrefixes (s : EState) : EState :=
  if s.prefixes.length > 1 then
    { s with prefixes := s.prefixes.filter (fun p => p.1.getD s.depth ' ' ≠ '1') }
  else if s.prefixes.length = 1 then
    if (s.prefixes.headD ([], 0)).1.getD s.depth ' ' = '1' then
      { s with prefixes := [] }
    else s
  else s

/-- `ExecutionState::removeTruePrefixes`. -/
def removeTruePrefixes (s : EState) : EState :=
  if s.prefixes.length > 1 then
    { s with prefixes := s.prefixes.filter (fun p => p.1.getD s.depth ' ' ≠ '0') }
  else if s.prefixes.length = 1 then
    if (s.prefixes.headD ([], 0)).1.getD s.depth ' ' = '0' then
      { s with prefixes := [] }
    else s
  else s

/-- Modelled from the spec: `ExecutionState::branch` (defined in
`ExecutionState.cpp`, which is not part of the provided sources) is "a
reference-sharing copy" of the state used to create the fork sibling;
the spec attributes all depth/history bookkeeping to the fork code
itself, so the copy only clears the coverage-novelty data. -/
def branchCopy (s : EState) : EState :=
  { s with coveredNew := false }

end EState

/-! ### Executor-level state (`class Executor`, `Executor.cpp`) -/

/-- The executor fields used by the modelled code.  `stateOf` maps a
state identifier to its contents; `states` is the live state set (kept
in its abstract iteration order); `searcherStates` stands for the
contents of whichever `Searcher` the executor drives. -/
structure Exec where
  stateOf : Nat → EState
  states : List Nat := []
  searcherStates : List Nat := []
  addedStates : List Nat := []
  removedStates : List Nat := []
  resumedStates : List Nat := []
  suspendedStatesVec : List Nat := []
  rangingSuspendedStates : List Nat := []
  prefixSuspendedStatesMap : List (List Char × Nat) := []
  nonRecoveryStates : List Nat := []
  nextId : Nat := 0
  ready2Offload : Bool := false
  haltExecution : Bool := false
  haltFromMaster : Bool := false
  waiting4OffloadReq : Bool := false

/-- Replace the state stored under identifier `i`. -/
def setState (ex : Exec) (i : Nat) (s : EState) : Exec :=
  { ex with stateOf := fun j => if j = i then s else ex.stateOf j }

/-- Update the state stored under identifier `i`. -/
def modState (ex : Exec) (i : Nat) (f : EState → EState) : Exec :=
  setState ex i (f (ex.stateOf i))

@[simp] theorem stateOf_setState_self (ex : Exec) (i : Nat) (s : EState) :
    (setState ex i s).stateOf i = s := by
  simp [setState]

@[simp] theorem stateOf_setState_ne (ex : Exec) (i j : Nat) (s : EState)
    (h : j ≠ i) : (setState ex i s).stateOf j = ex.stateOf j := by
  simp [setState, h]

@[simp] theorem stateOf_modState_self (ex : Exec) (i : Nat) (f : EState → EState) :
    (modState ex i f).stateOf i = f (ex.stateOf i) := by
  simp [modState]

@[simp] theorem stateOf_modState_ne (ex : Exec) (i j : Nat) (f : EState → EState)
    (h : j ≠ i) : (modState ex i f).stateOf j = ex.stateOf j := by
  simp [modState, h]

/-- `Executor::addConstraint` under the modelled default configuration
(no seeds, implied-value concretization off): a false `ConstantExpr`
raises `report_fatal_error` (modelled as `none`), a true one is dropped,
anything else goes to `ExecutionState::addConstraint`. -/
def addConstraintE (ex : Exec) (i : Nat) (condition : Expr) : Option Exec :=
  match condition with
  | Expr.const n => if n ≠ 0 then some ex else none
  | _ => some (modState ex i (fun s => s.addConstraint condition))

/-! ### Recovery engine (`Executor.cpp` §recovery) -/

/-- `Executor::suspendState`. -/
def suspendState (ex : Exec) (i : Nat) : Exec :=
  let ex := modState ex i (fun s => { s with suspendStatus := true })
  { ex with
    suspendedStatesVec := ex.suspendedStatesVec ++ [i],
    nonRecoveryStates := ex.nonRecoveryStates.erase i }

/-- `Executor::replicateBranchHist state recState`: extend `recState`'s
branch history by the missing tail of `state`'s, then copy depth and
prefixes over.  `none` models the `assert(recState->depth <= state->depth)`
failing. -/
def replicateBranchHist (ex : Exec) (stateId recId : Nat) : Option Exec :=
  let src := ex.stateOf stateId
  let dst := ex.stateOf recId
  if dst.depth ≤ src.depth then
    some (setState ex recId
      { dst with
        branchHist := dst.branchHist ++ src.branchHist.drop dst.branchHist.length,
        depth := src.depth,
        prefixes := src.prefixes })
  else none

/-- `Executor::resumeState state implicitlyCreated recState`. -/
def resumeState (ex : Exec) (i : Nat) (implicitlyCreated : Bool)
    (recId : Nat) : Option Exec :=
  let ex :=
    if !(ex.stateOf i).isRecoveryState then
      { ex with nonRecoveryStates := insertSet ex.nonRecoveryStates i }
    else ex
  let ex := modState ex i (fun s =>
    { s with suspendStatus := false, recoveryState := none,
             blockingLoadStatus := false })
  let ex :=
    if implicitlyCreated then { ex with addedStates := ex.addedStates ++ [i] }
    else { ex with resumedStates := ex.resumedStates ++ [i] }
  replicateBranchHist ex recId i

/-- `Executor::terminateState` under the modelled default configuration
(no replay): drop a never-scheduled state straight from `addedStates`,
otherwise roll back `pc` and queue it on `removedStates`. -/
def terminateState (ex : Exec) (i : Nat) : Exec :=
  let ex := { ex with nonRecoveryStates := ex.nonRecoveryStates.erase i }
  if i ∈ ex.addedStates then
    { ex with addedStates := ex.addedStates.erase i }
  else
    let ex := modState ex i (fun s => { s with pc := s.prevPC })
    { ex with removedStates := ex.removedStates ++ [i] }

/-- The guiding-constraint import loop of `Executor::startRecoveryState`
(`Executor::addConstraint` on the freshly built recovery state, which at
this point is a local object: no seeds, implied-value concretization
off): a false constant is fatal, a true one is dropped. -/
def addConstraintList (s : EState) : List Expr → Option EState
  | [] => some s
  | c :: rest =>
    match c with
    | Expr.const n => if n ≠ 0 then addConstraintList s rest else none
    | _ => addConstraintList (s.addConstraint c) rest

/-- `Executor::startRecoveryState state recoveryInfo`: clone the
snapshot state into a fresh recovery state, configure its recovery
fields, import the originating state's guiding constraints, replicate
the dependent's branch history into it, link it to `state` and queue it
at high priority.  The process-tree split is not modelled.  `none`
models a failed `assert` (non-empty guiding constraints or pending
infos on a non-first snapshot, a recovery state without an originating
state, a history-replication depth mismatch) or a fatal constraint. -/
def startRecoveryState (ex : Exec) (i : Nat) (ri : RecoveryInfo) :
    Option Exec :=
  let s := ex.stateOf i
  let snapshotState := ex.stateOf ri.snapshotStateId
  let recId := ex.nextId
  let base :=
    if ri.snapshotIndex = 0 then
      { snapshotState with typ := 2 }
    else
      { snapshotState with
        typ := 3, suspendStatus := false, recoveryState := none,
        blockingLoadStatus := true, recoveredLoads := [],
        recoveryCache := s.recoveryCache,
        allocationRecord := s.allocationRecord }
  if ri.snapshotIndex ≠ 0 ∧
      ¬(base.guidingConstraints = [] ∧ base.pendingRecoveryInfos = []) then
    none
  else
    match (if s.isRecoveryState then s.originatingState else some i) with
    | none => none
    | some origId =>
      let rec1 :=
        { base with
          exitInst := snapshotState.pc,
          dependentState := some i,
          originatingState := some origId,
          recoveryInfo := some ri,
          guidingAllocationRecord := s.allocationRecord,
          level := if s.isRecoveryState then s.level + 1 else 0 }
      match addConstraintList rec1 (ex.stateOf origId).guidingConstraints with
      | none => none
      | some rec2 =>
        let rec3 := { rec2 with pc := rec2.prevPC, priority := 1 }
        -- replicateBranchHist(&state, recoveryState)
        if rec3.depth ≤ s.depth then
          let rec4 :=
            { rec3 with
              branchHist := rec3.branchHist ++
                s.branchHist.drop rec3.branchHist.length,
              depth := s.depth, prefixes := s.prefixes }
          let ex := { setState ex recId rec4 with nextId := ex.nextId + 1 }
          let ex := modState ex i (fun t => { t with recoveryState := some recId })
          some { ex with addedStates := ex.addedStates ++ [recId] }
        else none

/-- `Executor::notifyDependentState recoveryState`. -/
def notifyDependentState (ex : Exec) (recId : Nat) : Option Exec :=
  match (ex.stateOf recId).dependentState with
  | none => none
  | some depId =>
    let ex :=
      if (ex.stateOf recId).isNormalState then
        modState ex depId (fun d =>
          { d with allocationRecord := (ex.stateOf recId).allocationRecord })
      else ex
    if depId ∈ ex.states then resumeState ex depId false recId
    else resumeState ex depId true recId

/-- `Executor::onRecoveryStateExit state`. -/
def onRecoveryStateExit (ex : Exec) (i : Nat) : Option Exec :=
  match (ex.stateOf i).dependentState with
  | none => none
  | some depId =>
    match (ex.stateOf depId).pendingRecoveryInfos with
    | ri :: rest =>
      let ex := modState ex depId (fun d => { d with pendingRecoveryInfos := rest })
      match replicateBranchHist ex i depId with
      | none => none
      | some ex =>
        match startRecoveryState ex depId ri with
        | none => none
        | some ex => some (terminateState ex i)
    | [] =>
      match notifyDependentState ex i with
      | none => none
      | some ex => some (terminateState ex i)

/-- `Executor::onRecoveryStateWrite state address mo offset value`:
non-constant address or offset returns immediately; a store to an
address other than the recovery's blocking-load address is ignored;
otherwise the value is written through to the dependent state's object
state for `mo` and recorded in the dependent's recovery cache.  `none`
models a missing recovery info / dependent link or `findObject`
returning null. -/
def onRecoveryStateWrite (ex : Exec) (i : Nat) (address : Expr) (mo : Nat)
    (offset : Expr) (value : Expr) : Option Exec :=
  match address, offset with
  | Expr.const storeAddr, Expr.const off =>
    match (ex.stateOf i).recoveryInfo with
    | none => none
    | some ri =>
      if storeAddr ≠ ri.loadAddr then some ex
      else
        match (ex.stateOf i).dependentState with
        | none => none
        | some depId =>
          let dep := ex.stateOf depId
          match lookupA dep.addressSpace mo with
          | none => none
          | some os =>
            let dep :=
              { dep with addressSpace := setA dep.addressSpace mo (setA os off value) }
            let dep := dep.updateRecoveredValue ri.snapshotIndex ri.sliceId storeAddr value
            some (setState ex depId dep)
  | _, _ => some ex

/-- The filtering loop of `Executor::getAllRecoveryInfo` (the walk of
`required` in reverse with `result.push_front`), processed here on the
reversed list.  Returns the updated state, the recovery infos pushed
onto `pendingRecoveryInfos` (in their original order) and, for the
cached-modifying hit that stops the walk, the value written back via
`executeMemoryOperation` (the memory write itself is outside this
loop's scope). -/
def filterRecoveryInfosRev (s : EState) (loadAddr : Nat) :
    List RecoveryInfo → EState × List RecoveryInfo × List Expr
  | [] => (s, [], [])
  | ri :: rest =>
    match s.getRecoveredValue ri.snapshotIndex ri.sliceId loadAddr with
    | some cached =>
      let s := s.addRecoveredAddress loadAddr
      match cached with
      | some v => (s, [], [v])
      | none => filterRecoveryInfosRev s loadAddr rest
    | none =>
      let s := s.updateRecoveredValue ri.snapshotIndex ri.sliceId loadAddr none
      let r := filterRecoveryInfosRev s loadAddr rest
      (r.1, r.2.1 ++ [ri], r.2.2)

/-- The caching part of `Executor::getAllRecoveryInfo`: filter the
collected `required` list against the recovery cache and push the kept
entries onto the state's `pendingRecoveryInfos` (which the caller passed
in by reference). -/
def getAllRecoveryInfoFilter (s : EState) (loadAddr : Nat)
    (required : List RecoveryInfo) : EState × List Expr :=
  let r := filterRecoveryInfosRev s loadAddr required.reverse
  ({ r.1 with pendingRecoveryInfos := r.2.1 ++ r.1.pendingRecoveryInfos }, r.2.2)

/-! ### Forking (`Executor::fork` and helpers) -/

/-- `Solver::evaluate` results. -/
inductive SolverRes where
  | strue | sfalse | sunknown
  deriving DecidableEq, Repr

/-- The cloning loop of `Executor::forkDependentStates`: walk the
dependent chain from `trueState` downwards, clone each member, and
rewire `recoveryState` / `dependentState` links.  Recursion over the
(possibly cyclic in an ill-formed heap) pointer chain is bounded by
`fuel`; `none` models exhausted fuel or a failed
`assert(forked->isSuspended())` / missing link.  Returns the forked
originating state's identifier.  The process-tree splits are not
modelled. -/
def forkDependentStatesAux (ex : Exec) (current prevForked : Nat) :
    Nat → Option (Exec × Nat)
  | 0 => none
  | fuel + 1 =>
    let cs := ex.stateOf current
    if !cs.suspendStatus then none
    else
      let forkedId := ex.nextId
      let ex := { setState ex forkedId { cs with recoveryState := some prevForked }
                  with nextId := ex.nextId + 1 }
      let ex := modState ex prevForked (fun p => { p with dependentState := some forkedId })
      if cs.isRecoveryState then
        match cs.dependentState with
        | none => none
        | some d => forkDependentStatesAux ex d forkedId fuel
      else some (ex, forkedId)

/-- The second loop of `Executor::forkDependentStates`: set the forked
originating state on every recovery state of the sibling chain. -/
def updateOriginatingChain (ex : Exec) (current orig : Nat) :
    Nat → Option Exec
  | 0 => none
  | fuel + 1 =>
    if (ex.stateOf current).isRecoveryState then
      let ex := modState ex current (fun t => { t with originatingState := some orig })
      match (ex.stateOf current).dependentState with
      | none => some ex
      | some d => updateOriginatingChain ex d orig fuel
    else some ex

/-- `Executor::forkDependentStates trueState falseState`. -/
def forkDependentStates (ex : Exec) (trueId falseId : Nat) (fuel : Nat) :
    Option Exec :=
  match (ex.stateOf trueId).dependentState with
  | none => none
  | some depId =>
    match forkDependentStatesAux ex depId falseId fuel with
    | none => none
    | some (ex, forkedOrig) => updateOriginatingChain ex falseId forkedOrig fuel

/-- The chain walk of `Executor::mergeConstraintsForAll`:
`Executor::mergeConstraints` (an `addConstraint`) on every state of the
dependent chain. -/
def mergeConstraintsChain (ex : Exec) (i : Nat) (condition : Expr) :
    Nat → Option Exec
  | 0 => none
  | fuel + 1 =>
    match addConstraintE ex i condition with
    | none => none
    | some ex =>
      if (ex.stateOf i).isRecoveryState then
        match (ex.stateOf i).dependentState with
        | none => none
        | some d => mergeConstraintsChain ex d condition fuel
      else some ex

/-- `Executor::mergeConstraintsForAll recoveryState condition`. -/
def mergeConstraintsForAll (ex : Exec) (recId : Nat) (condition : Expr)
    (fuel : Nat) : Option Exec :=
  match (ex.stateOf recId).dependentState with
  | none => none
  | some depId =>
    match mergeConstraintsChain ex depId condition fuel with
    | none => none
    | some ex =>
      match (ex.stateOf recId).originatingState with
      | none => none
      | some origId =>
        some (modState ex origId (fun t =>
          { t with guidingConstraints := insertSet t.guidingConstraints condition }))

/-- One non-internal branch event on a state: increment `depth` and
append `c` to `branchHist` (the bodies of the
`if (!isInternal) { ... depth++; ... branchHist.push_back(c); }` blocks
of `Executor::fork`). -/
def branchEvent (s : EState) (c : Char) : EState :=
  { s with depth := s.depth + 1, branchHist := s.branchHist ++ [c] }

/-- The decision part of `Executor::fork` (how `res` and
`forkAndSuspend` are determined): the master always asks the solver;
a ranging worker consults `branchToTake` on non-internal branches and
the solver otherwise. -/
def forkDecision (s : EState) (isInternal : Bool) (coreId : Nat)
    (solverRes : SolverRes) : Option (SolverRes × Bool) :=
  if coreId = 0 then some (solverRes, false)
  else if s.shallIRange then
    if isInternal then some (solverRes, false)
    else
      match s.branchToTake with
      | none => none
      | some (r, fas) =>
        some ((if r = 0 then SolverRes.strue
               else if r = 1 then SolverRes.sfalse
               else SolverRes.sunknown), fas)
  else some (solverRes, false)

/-- The recovery-chain block shared by the three fork outcomes
(`if (state->isRecoveryState()) { forkDependentStates(...);
mergeConstraintsForAll(...); mergeConstraintsForAll(...); }`):
`checkedId` is the state whose recovery flag is tested (and the first
argument of `forkDependentStates`), `sibId` its fresh sibling, and
`tId` / `fId` the states merged with the condition / its negation. -/
def forkChainCheck (ex : Exec) (checkedId sibId tId fId : Nat)
    (condition : Expr) (fuel : Nat) : Option Exec :=
  if (ex.stateOf checkedId).isRecoveryState then
    match forkDependentStates ex checkedId sibId fuel with
    | none => none
    | some ex =>
      match mergeConstraintsForAll ex tId condition fuel with
      | none => none
      | some ex => mergeConstraintsForAll ex fId (createIsZero condition) fuel
  else some ex

/-- The `res == Solver::True && forkAndSuspend` outcome of
`Executor::fork`: clone the false sibling, record branch events `'0'` /
`'1'`, add the condition and its negation, and park the sibling on
`rangingSuspendedStates` (it is not scheduled). -/
def forkTrueSuspend (ex : Exec) (cur : Nat) (condition : Expr)
    (isInternal : Bool) (fuel : Nat) :
    Option (Exec × (Option Nat × Option Nat)) :=
  let falseId := ex.nextId
  let ex := { setState ex falseId (ex.stateOf cur).branchCopy with
              nextId := ex.nextId + 1 }
  let ex :=
    if !(ex.stateOf falseId).isRecoveryState then
      { ex with nonRecoveryStates := insertSet ex.nonRecoveryStates falseId }
    else ex
  let ex :=
    if !isInternal then
      modState (modState ex cur (fun t => branchEvent t '0'))
        falseId (fun t => branchEvent t '1')
    else ex
  match addConstraintE ex cur condition with
  | none => none
  | some ex =>
    match addConstraintE ex falseId (createIsZero condition) with
    | none => none
    | some ex =>
      match forkChainCheck ex cur falseId cur falseId condition fuel with
      | none => none
      | some ex =>
        some ({ ex with rangingSuspendedStates := ex.rangingSuspendedStates ++ [falseId] },
              (some cur, some falseId))

/-- The `res == Solver::True`, no-fork outcome of `Executor::fork`:
take the true branch, record event `'2'`. -/
def forkTrueTake (ex : Exec) (cur : Nat) (isInternal : Bool) :
    Exec × (Option Nat × Option Nat) :=
  (if !isInternal then modState ex cur (fun t => branchEvent t '2') else ex,
   (some cur, none))

/-- The `res == Solver::False && forkAndSuspend` outcome of
`Executor::fork`: clone the true sibling and park it on
`rangingSuspendedStates`. -/
def forkFalseSuspend (ex : Exec) (cur : Nat) (condition : Expr)
    (isInternal : Bool) (fuel : Nat) :
    Option (Exec × (Option Nat × Option Nat)) :=
  let trueId := ex.nextId
  let ex := { setState ex trueId (ex.stateOf cur).branchCopy with
              nextId := ex.nextId + 1 }
  let ex :=
    if !(ex.stateOf trueId).isRecoveryState then
      { ex with nonRecoveryStates := insertSet ex.nonRecoveryStates trueId }
    else ex
  let ex :=
    if !isInternal then
      modState (modState ex trueId (fun t => branchEvent t '0'))
        cur (fun t => branchEvent t '1')
    else ex
  match addConstraintE ex trueId condition with
  | none => none
  | some ex =>
    match addConstraintE ex cur (createIsZero condition) with
    | none => none
    | some ex =>
      match forkChainCheck ex cur trueId trueId cur condition fuel with
      | none => none
      | some ex =>
        some ({ ex with rangingSuspendedStates := ex.rangingSuspendedStates ++ [trueId] },
              (some trueId, some cur))

/-- The `res == Solver::False`, no-fork outcome of `Executor::fork`:
take the false branch, record event `'3'`. -/
def forkFalseTake (ex : Exec) (cur : Nat) (isInternal : Bool) :
    Exec × (Option Nat × Option Nat) :=
  (if !isInternal then modState ex cur (fun t => branchEvent t '3') else ex,
   (none, some cur))

/-- The `res == Solver::Unknown` outcome of `Executor::fork`: a real
fork.  The sibling is scheduled through `addedStates`; on workers the
prefixes are partitioned through `removeFalsePrefixes` /
`removeTruePrefixes`. -/
def forkUnknown (ex : Exec) (cur : Nat) (condition : Expr)
    (isInternal : Bool) (coreId : Nat) (fuel : Nat) :
    Option (Exec × (Option Nat × Option Nat)) :=
  let falseId := ex.nextId
  let ex := { setState ex falseId (ex.stateOf cur).branchCopy with
              nextId := ex.nextId + 1 }
  let ex :=
    if !(ex.stateOf falseId).isRecoveryState then
      { ex with nonRecoveryStates := insertSet ex.nonRecoveryStates falseId }
    else ex
  let ex := { ex with addedStates := ex.addedStates ++ [falseId] }
  let ex :=
    if coreId ≠ 0 then
      modState (modState ex cur EState.removeFalsePrefixes)
        falseId EState.removeTruePrefixes
    else ex
  let ex :=
    if !isInternal then
      modState (modState ex cur (fun t => branchEvent t '0'))
        falseId (fun t => branchEvent t '1')
    else ex
  match addConstraintE ex cur condition with
  | none => none
  | some ex =>
    match addConstraintE ex falseId (createIsZero condition) with
    | none => none
    | some ex =>
      match forkChainCheck ex cur falseId cur falseId condition fuel with
      | none => none
      | some ex => some (ex, (some cur, some falseId))

/-- `Executor::fork current condition isInternal` under the modelled
default configuration (no seeding, no replay, no memory pressure,
forking enabled, `maxForks` unlimited, no path writers).  `coreId`
distinguishes the master (0) from workers; `solverRes` is the oracle
answer of `solver->evaluate` wherever the source consults the solver
(solver timeouts are not modelled).  Returns the updated executor and
the `StatePair` of state identifiers; `none` models undefined behaviour
inside `branchToTake`, a fatal constraint, or a failure in the
dependent-chain helpers. -/
def fork (ex : Exec) (cur : Nat) (condition : Expr) (isInternal : Bool)
    (coreId : Nat) (solverRes : SolverRes) (fuel : Nat) :
    Option (Exec × (Option Nat × Option Nat)) :=
  match forkDecision (ex.stateOf cur) isInternal coreId solverRes with
  | none => none
  | some (res, forkAndSuspend) =>
    match res with
    | SolverRes.strue =>
      if forkAndSuspend then forkTrueSuspend ex cur condition isInternal fuel
      else some (forkTrueTake ex cur isInternal)
    | SolverRes.sfalse =>
      if forkAndSuspend then forkFalseSuspend ex cur condition isInternal fuel
      else some (forkFalseTake ex cur isInternal)
    | SolverRes.sunknown => forkUnknown ex cur condition isInternal coreId fuel

/-! ### Offloading (`Executor::offloadFromStatesVector`,
`Executor::newCheck2Offload`, and the ranging-suspension mapping in
`Executor::updateStates`) -/

/-- The branch-history length minimum loop of
`Executor::offloadFromStatesVector` (recomputed over the kept vector). -/
def minHistLen (ex : Exec) : List Nat → Nat
  | [] => 0
  | i :: rest =>
    rest.foldl (fun m j => min m (ex.stateOf j).branchHist.length)
      (ex.stateOf i).branchHist.length

/-- `Executor::offloadFromStatesVector(std::vector<ExecutionState*>&)`:
collect every non-suspended live state (in the live set's iteration
order), then keep the first quarter (first 16 when more than 64), and
return the kept vector together with the minimum history length over
it.  The second component is `none` on the not-ready/halting path,
where the source leaves `minSize` uninitialized; it is `some 0` on the
fewer-than-four path (`return 0`).  `none` overall models the
`assert(removedStates.size() == 0)` failing. -/
def offloadFromStatesVector (ex : Exec) : Option (List Nat × Option Nat) :=
  if !ex.haltExecution && !ex.haltFromMaster && ex.ready2Offload then
    if ex.removedStates ≠ [] then none
    else
      let offloadVec := ex.states.filter (fun i => !(ex.stateOf i).suspendStatus)
      if offloadVec.length < 4 then some ([], some 0)
      else if offloadVec.length > 64 then
        let kept := offloadVec.take 16
        some (kept, some (minHistLen ex kept))
      else
        let kept := offloadVec.take (offloadVec.length / 4)
        some (kept, some (minHistLen ex kept))
  else some ([], none)

/-- The longest-common-prefix loop of `Executor::newCheck2Offload`:
compare position `x` of the first history against all the others,
stopping at the first mismatch or after `bound` characters. -/
def commonPrefFrom (hists : List (List Char)) (x : Nat) : Nat → List Char
  | 0 => []
  | bound + 1 =>
    match hists with
    | [] => []
    | h0 :: rest =>
      let val := h0.getD x ' '
      if rest.all (fun h => h.getD x ' ' = val) then
        val :: commonPrefFrom hists (x + 1) bound
      else []

/-- The common prefix of the selected histories, bounded by the minimum
history length. -/
def commonPref (hists : List (List Char)) (minSize : Nat) : List Char :=
  commonPrefFrom hists 0 minSize

/-- `std::map<std::string, ExecutionState*>::insert`: no overwrite of an
existing key. -/
def insertMapNoOverwrite (m : List (List Char × Nat)) (k : List Char)
    (v : Nat) : List (List Char × Nat) :=
  match lookupA m k with
  | some _ => m
  | none => m ++ [(k, v)]

/-- `Executor::newCheck2Offload` with an `OFFLOAD` message pending (MPI
probe/receive elided): select states to surrender, build the composite
prefix message (or the failure byte `'x'`), remove surrendered states
from the searcher and the live set and queue them on
`rangingSuspendedStates`.  Returns the updated executor and the reply
payload. -/
def newCheck2Offload (ex : Exec) : Option (Exec × List Char) :=
  match offloadFromStatesVector ex with
  | none => none
  | some (states2Offload, minSize) =>
    if states2Offload.length > 0 then
      let hists := states2Offload.map (fun i => (ex.stateOf i).branchHist)
      let commonPrefix := commonPref hists (minSize.getD 0)
      let start := commonPrefix.length
      let msg := commonPrefix ++
        (states2Offload.map (fun i =>
          '-' :: ((ex.stateOf i).branchHist.drop start))).flatten
      let ex := { ex with
        searcherStates := ex.searcherStates.filter (fun i => !states2Offload.contains i) }
      let ex := states2Offload.foldl (fun e i =>
        { e with
          states := e.states.erase i,
          rangingSuspendedStates := e.rangingSuspendedStates ++ [i],
          removedStates := e.removedStates.erase i }) ex
      some ({ ex with waiting4OffloadReq := false }, msg)
    else
      some ({ ex with waiting4OffloadReq := false }, ['x'])

/-- The history-canonicalization loop of `Executor::updateStates`:
`'2' → '0'`, `'3' → '1'`, `'-'` dropped. -/
def canonicalHist : List Char → List Char
  | [] => []
  | c :: rest =>
    if c = '2' then '0' :: canonicalHist rest
    else if c = '3' then '1' :: canonicalHist rest
    else if c = '-' then canonicalHist rest
    else c :: canonicalHist rest

/-- The ranging-suspension block of `Executor::updateStates` (lines
following the searcher update): every state queued on
`rangingSuspendedStates` has its prefixes cleared and is filed in
`prefixSuspendedStatesMap` under the canonical form of its branch
history; the queue is then cleared.  (The parallel radix-tree insert
`prefixTree->addToTree` indexes the same keys and is not modelled.) -/
def mapRangingSuspendedStates (ex : Exec) : Exec :=
  let ex := ex.rangingSuspendedStates.foldl (fun e i =>
    let path := canonicalHist (e.stateOf i).branchHist
    let e := modState e i (fun s => { s with prefixes := [] })
    { e with prefixSuspendedStatesMap := insertMapNoOverwrite e.prefixSuspendedStatesMap path i }) ex
  { ex with rangingSuspendedStates := [] }

/-! ### The BFS-by-depth searcher (`BFSSearcher`, `Searcher.cpp`) -/

/-- The fields of `class BFSSearcher`: the flat state vector, the
state-to-depth map, the depth-to-deque-of-states map, and the cached
minimum depth.  States are identifiers; their `actDepth` field is read
through an external `depthOf` function, mirroring the searcher reading
`current->actDepth` from the mutable states. -/
structure BFSSearcher where
  states : List Nat := []
  depthMap : List (Nat × Nat) := []
  depthStatesMap : List (Nat × List Nat) := []
  currentMinDepth : Nat := 0
  deriving DecidableEq, Repr

namespace BFSSearcher

/-- `BFSSearcher::insertIntoDepthStateMap`. -/
def insertIntoDepthStateMap (depthOf : Nat → Nat) (b : BFSSearcher)
    (current : Nat) : BFSSearcher :=
  let b := if current ∈ b.states then b else { b with states := b.states ++ [current] }
  let depth := depthOf current
  let b := if b.depthMap = [] then { b with currentMinDepth := depth } else b
  let b := { b with depthMap := setA b.depthMap current depth }
  match lookupA b.depthStatesMap depth with
  | none =>
    let b := { b with depthStatesMap := setA b.depthStatesMap depth [current] }
    if b.currentMinDepth > depth then { b with currentMinDepth := depth } else b
  | some listOfStates =>
    { b with depthStatesMap := setA b.depthStatesMap depth (listOfStates ++ [current]) }

/-- The forward scan `while (depthStatesMap.find(tryDepth) == ...)
tryDepth++` of `BFSSearcher::removeFromDepthStateMap`: the least
populated depth strictly above `d`, or `none` when there is none (in
which case the source loops forever). -/
def minKeyAbove (keys : List Nat) (d : Nat) : Option Nat :=
  keys.foldr (fun k acc =>
    if d < k then
      match acc with
      | none => some k
      | some m => some (min k m)
    else acc) none

/-- `BFSSearcher::removeFromDepthStateMap`.  `none` models a failed
`assert` (state or bucket missing) or the non-terminating scan. -/
def removeFromDepthStateMap (b : BFSSearcher) (current : Nat) :
    Option BFSSearcher :=
  if current ∉ b.states then none
  else
    let b := { b with states := b.states.erase current }
    let oldDepth := (lookupA b.depthMap current).getD 0
    match lookupA b.depthStatesMap oldDepth with
    | none => none
    | some listOfStates =>
      if current ∉ listOfStates then none
      else
        let listOfStates := listOfStates.erase current
        let b' :=
          if listOfStates = [] then
            let b := { b with depthStatesMap := eraseA b.depthStatesMap oldDepth }
            if oldDepth = b.currentMinDepth then
              match minKeyAbove (b.depthStatesMap.map Prod.fst) b.currentMinDepth with
              | none => none
              | some k => some { b with currentMinDepth := k }
            else some b
          else
            some { b with depthStatesMap := setA b.depthStatesMap oldDepth listOfStates }
        match b' with
        | none => none
        | some b => some { b with depthMap := eraseA b.depthMap current }

/-- `BFSSearcher::updateDepthStateMap`. -/
def updateDepthStateMap (depthOf : Nat → Nat) (b : BFSSearcher)
    (current : Nat) (oldDepth : Nat) : Option BFSSearcher :=
  let newDepth := depthOf current
  match lookupA b.depthStatesMap oldDepth with
  | none => none
  | some listOfStates =>
    if current ∉ listOfStates then none
    else
      let listOfStates := listOfStates.erase current
      let b :=
        if listOfStates = [] then
          let b := { b with depthStatesMap := eraseA b.depthStatesMap oldDepth }
          if b.currentMinDepth ≤ oldDepth then { b with currentMinDepth := newDepth }
          else b
        else
          { b with depthStatesMap := setA b.depthStatesMap oldDepth listOfStates }
      some (insertIntoDepthStateMap depthOf b current)

/-- `BFSSearcher::update current addedStates removedStates`. -/
def update (depthOf : Nat → Nat) (b : BFSSearcher) (current : Option Nat)
    (addedStates removedStates : List Nat) : Option BFSSearcher :=
  let b1 : Option BFSSearcher :=
    match current with
    | none => some b
    | some c =>
      match lookupA b.depthMap c with
      | none => some b
      | some d =>
        if d ≠ depthOf c then
          match updateDepthStateMap depthOf b c d with
          | none => none
          | some b => some { b with depthMap := setA b.depthMap c (depthOf c) }
        else some b
  match b1 with
  | none => none
  | some b =>
    match removedStates.foldlM (fun b i => removeFromDepthStateMap b i) b with
    | none => none
    | some b => some (addedStates.foldl (fun b i => insertIntoDepthStateMap depthOf b i) b)

/-- `BFSSearcher::selectState`: the front of the deque at
`currentMinDepth` (`none` models the `assert` failing or an empty
deque). -/
def selectState (b : BFSSearcher) : Option Nat :=
  match lookupA b.depthStatesMap b.currentMinDepth with
  | none => none
  | some listOfStates => listOfStates.head?

/-- The states held in the searcher's depth buckets. -/
def heldStates (b : BFSSearcher) : List Nat :=
  (b.depthStatesMap.map Prod.snd).flatten

end BFSSearcher

/-- The symbolic-fork count of a branch history: the number of `'0'` and
`'1'` events. -/
def count01 (l : List Char) : Nat :=
  l.countP (fun c => c == '0' || c == '1')

/-- The offload selection on the `4 ≤ n ≤ 64` path of
`Executor::offloadFromStatesVector`: the first quarter of the
non-suspended frontier in the live set's iteration order. -/
def offloadKept (ex : Exec) : List Nat :=
  (ex.states.filter (fun i => !(ex.stateOf i).suspendStatus)).take
    ((ex.states.filter (fun i => !(ex.stateOf i).suspendStatus)).length / 4)

/-- The minimality data cached by `BFSSearcher`: distinct depth keys,
every bucket nonempty and no shallower than `currentMinDepth`, and a
bucket present at `currentMinDepth` whenever any bucket exists. -/
def BMinInv (b : BFSSearcher) : Prop :=
  (b.depthStatesMap.map Prod.fst).Nodup ∧
  (∀ p ∈ b.depthStatesMap, b.currentMinDepth ≤ p.1 ∧ p.2 ≠ []) ∧
  (b.depthStatesMap ≠ [] →
    (lookupA b.depthStatesMap b.currentMinDepth).isSome = true)

instance (b : BFSSearcher) : Decidable (BMinInv b) := by
  unfold BMinInv
  exact inferInstance

/-! ### Association-list lemmas -/

theorem lookupA_setA_self {α β : Type} [DecidableEq α] (m : List (α × β))
    (k : α) (v : β) : lookupA (setA m k v) k = some v := by
  induction m with
  | nil => simp [setA, lookupA]
  | cons p rest ih =>
    by_cases h : p.1 = k
    · simp [setA, h, lookupA]
    · simp [setA, h, lookupA, ih]

theorem lookupA_setA_ne {α β : Type} [DecidableEq α] (m : List (α × β))
    (k k' : α) (v : β) (h : k' ≠ k) :
    lookupA (setA m k v) k' = lookupA m k' := by
  induction m with
  | nil => simp [setA, lookupA, Ne.symm h]
  | cons p rest ih =>
    by_cases hp : p.1 = k
    · subst hp
      simp [setA, lookupA, h, Ne.symm h]
    · simp [setA, hp, lookupA, ih]

theorem lookupA_eraseA_ne {α β : Type} [DecidableEq α] (m : List (α × β))
    (k k' : α) (h : k' ≠ k) :
    lookupA (eraseA m k) k' = lookupA m k' := by
  induction m with
  | nil => simp [eraseA]
  | cons p rest ih =>
    by_cases hp : p.1 = k
    · subst hp
      simp [eraseA, lookupA, h, Ne.symm h]
    · simp [eraseA, hp, lookupA, ih]

theorem mem_of_lookupA {α β : Type} [DecidableEq α] (m : List (α × β))
    (k : α) (v : β) (h : lookupA m k = some v) : (k, v) ∈ m := by
  induction m with
  | nil => simp [lookupA] at h
  | cons p rest ih =>
    by_cases hp : p.1 = k
    · simp [lookupA, hp] at h
      cases p
      simp_all
    · simp [lookupA, hp] at h
      exact List.mem_cons_of_mem _ (ih h)

/-! ### `EState` recovery-cache lemmas -/

namespace EState

theorem getRecoveredValue_update_self (s : EState) (i j a : Nat)
    (v : Option Expr) :
    (s.updateRecoveredValue i j a v).getRecoveredValue i j a = some v := by
  unfold updateRecoveredValue getRecoveredValue
  simp [lookupA_setA_self]

theorem getRecoveredValue_update_ne_key (s : EState) (i j i' j' a a' : Nat)
    (v : Option Expr) (h : (i', j') ≠ (i, j)) :
    (s.updateRecoveredValue i j a v).getRecoveredValue i' j' a' =
      s.getRecoveredValue i' j' a' := by
  unfold updateRecoveredValue getRecoveredValue
  simp [lookupA_setA_ne _ _ _ _ h]

theorem getRecoveredValue_update_ne_addr (s : EState) (i j a a' : Nat)
    (v : Option Expr) (h : a' ≠ a) :
    (s.updateRecoveredValue i j a v).getRecoveredValue i j a' =
      s.getRecoveredValue i j a' := by
  unfold updateRecoveredValue getRecoveredValue
  cases hc : lookupA s.recoveryCache (i, j) with
  | none => simp [lookupA_setA_self, hc, lookupA_setA_ne _ _ _ _ h, lookupA, Ne.symm h]
  | some vc => simp [lookupA_setA_self, hc, lookupA_setA_ne _ _ _ _ h]

theorem getRecoveredValue_addRecovered (s : EState) (i j a x : Nat) :
    (s.addRecoveredAddress x).getRecoveredValue i j a =
      s.getRecoveredValue i j a := by
  unfold addRecoveredAddress getRecoveredValue
  simp

end EState

/-! ### Field-preservation lemmas for the fork helpers -/

@[simp] theorem states_setState (ex : Exec) (i : Nat) (s : EState) :
    (setState ex i s).states = ex.states := rfl
@[simp] theorem addedStates_setState (ex : Exec) (i : Nat) (s : EState) :
    (setState ex i s).addedStates = ex.addedStates := rfl
@[simp] theorem rangingSuspendedStates_setState (ex : Exec) (i : Nat) (s : EState) :
    (setState ex i s).rangingSuspendedStates = ex.rangingSuspendedStates := rfl
@[simp] theorem nextId_setState (ex : Exec) (i : Nat) (s : EState) :
    (setState ex i s).nextId = ex.nextId := rfl
@[simp] theorem searcherStates_setState (ex : Exec) (i : Nat) (s : EState) :
    (setState ex i s).searcherStates = ex.searcherStates := rfl
@[simp] theorem removedStates_setState (ex : Exec) (i : Nat) (s : EState) :
    (setState ex i s).removedStates = ex.removedStates := rfl
@[simp] theorem resumedStates_setState (ex : Exec) (i : Nat) (s : EState) :
    (setState ex i s).resumedStates = ex.resumedStates := rfl
@[simp] theorem suspendedStatesVec_setState (ex : Exec) (i : Nat) (s : EState) :
    (setState ex i s).suspendedStatesVec = ex.suspendedStatesVec := rfl
@[simp] theorem prefixSuspendedStatesMap_setState (ex : Exec) (i : Nat) (s : EState) :
    (setState ex i s).prefixSuspendedStatesMap = ex.prefixSuspendedStatesMap := rfl
@[simp] theorem nonRecoveryStates_setState (ex : Exec) (i : Nat) (s : EState) :
    (setState ex i s).nonRecoveryStates = ex.nonRecoveryStates := rfl

@[simp] theorem states_modState (ex : Exec) (i : Nat) (f : EState → EState) :
    (modState ex i f).states = ex.states := rfl
@[simp] theorem addedStates_modState (ex : Exec) (i : Nat) (f : EState → EState) :
    (modState ex i f).addedStates = ex.addedStates := rfl
@[simp] theorem rangingSuspendedStates_modState (ex : Exec) (i : Nat)
    (f : EState → EState) :
    (modState ex i f).rangingSuspendedStates = ex.rangingSuspendedStates := rfl
@[simp] theorem nextId_modState (ex : Exec) (i : Nat) (f : EState → EState) :
    (modState ex i f).nextId = ex.nextId := rfl
@[simp] theorem searcherStates_modState (ex : Exec) (i : Nat) (f : EState → EState) :
    (modState ex i f).searcherStates = ex.searcherStates := rfl
@[simp] theorem removedStates_modState (ex : Exec) (i : Nat) (f : EState → EState) :
    (modState ex i f).removedStates = ex.removedStates := rfl
@[simp] theorem resumedStates_modState (ex : Exec) (i : Nat) (f : EState → EState) :
    (modState ex i f).resumedStates = ex.resumedStates := rfl
@[simp] theorem suspendedStatesVec_modState (ex : Exec) (i : Nat) (f : EState → EState) :
    (modState ex i f).suspendedStatesVec = ex.suspendedStatesVec := rfl
@[simp] theorem prefixSuspendedStatesMap_modState (ex : Exec) (i : Nat)
    (f : EState → EState) :
    (modState ex i f).prefixSuspendedStatesMap = ex.prefixSuspendedStatesMap := rfl
@[simp] theorem nonRecoveryStates_modState (ex : Exec) (i : Nat) (f : EState → EState) :
    (modState ex i f).nonRecoveryStates = ex.nonRecoveryStates := rfl

@[simp] theorem EState.addConstraint_depth (s : EState) (e : Expr) :
    (s.addConstraint e).depth = s.depth := by
  unfold EState.addConstraint; dsimp only; split <;> rfl

@[simp] theorem EState.addConstraint_branchHist (s : EState) (e : Expr) :
    (s.addConstraint e).branchHist = s.branchHist := by
  unfold EState.addConstraint; dsimp only; split <;> rfl

@[simp] theorem EState.addConstraint_typ (s : EState) (e : Expr) :
    (s.addConstraint e).typ = s.typ := by
  unfold EState.addConstraint; dsimp only; split <;> rfl

@[simp] theorem EState.addConstraint_constraints (s : EState) (e : Expr) :
    (s.addConstraint e).constraints = s.constraints ++ [e] := by
  unfold EState.addConstraint; dsimp only; split <;> rfl

@[simp] theorem EState.addConstraint_isRecoveryState (s : EState) (e : Expr) :
    (s.addConstraint e).isRecoveryState = s.isRecoveryState := by
  unfold EState.isRecoveryState; rw [EState.addConstraint_typ]

@[simp] theorem branchEvent_depth (s : EState) (c : Char) :
    (branchEvent s c).depth = s.depth + 1 := rfl
@[simp] theorem branchEvent_branchHist (s : EState) (c : Char) :
    (branchEvent s c).branchHist = s.branchHist ++ [c] := rfl
@[simp] theorem branchEvent_typ (s : EState) (c : Char) :
    (branchEvent s c).typ = s.typ := rfl
@[simp] theorem branchEvent_constraints (s : EState) (c : Char) :
    (branchEvent s c).constraints = s.constraints := rfl
@[simp] theorem branchEvent_isRecoveryState (s : EState) (c : Char) :
    (branchEvent s c).isRecoveryState = s.isRecoveryState := rfl

@[simp] theorem EState.branchCopy_depth (s : EState) :
    s.branchCopy.depth = s.depth := rfl
@[simp] theorem EState.branchCopy_branchHist (s : EState) :
    s.branchCopy.branchHist = s.branchHist := rfl
@[simp] theorem EState.branchCopy_typ (s : EState) :
    s.branchCopy.typ = s.typ := rfl
@[simp] theorem EState.branchCopy_constraints (s : EState) :
    s.branchCopy.constraints = s.constraints := rfl
@[simp] theorem EState.branchCopy_isRecoveryState (s : EState) :
    s.branchCopy.isRecoveryState = s.isRecoveryState := rfl

/-- `createIsZero` keeps a non-constant expression non-constant. -/
theorem createIsZero_notConst (c : Expr) (h : c.isConst = false) :
    (createIsZero c).isConst = false := by
  cases c with
  | const n => simp [Expr.isConst] at h
  | var v => rfl
  | isZero e => rfl

/-- On a non-constant condition, `Executor::addConstraint` always
succeeds and is exactly `ExecutionState::addConstraint` on state `i`. -/
theorem addConstraintE_notConst (ex : Exec) (i : Nat) (c : Expr)
    (h : c.isConst = false) :
    addConstraintE ex i c =
      some (modState ex i (fun s => s.addConstraint c)) := by
  cases c with
  | const n => simp [Expr.isConst] at h
  | var v => rfl
  | isZero e => rfl

/-- The recovery-chain block is inert on a non-recovery state. -/
theorem forkChainCheck_notRec (ex : Exec) (checkedId sibId tId fId : Nat)
    (condition : Expr) (fuel : Nat)
    (h : (ex.stateOf checkedId).isRecoveryState = false) :
    forkChainCheck ex checkedId sibId tId fId condition fuel = some ex := by
  unfold forkChainCheck
  rw [if_neg (ne_true_of_eq_false h)]

/-- Characterization of the take-true-and-suspend-the-false-sibling
outcome of `Executor::fork` on a non-internal branch of a non-recovery
state. -/
theorem forkTrueSuspend_spec (ex : Exec) (cur : Nat) (condition : Expr)
    (fuel : Nat)
    (hnr : (ex.stateOf cur).isRecoveryState = false)
    (hfresh : cur ≠ ex.nextId)
    (hnc : condition.isConst = false) :
    ∃ ex', forkTrueSuspend ex cur condition false fuel =
        some (ex', (some cur, some ex.nextId)) ∧
      ex'.stateOf cur = (branchEvent (ex.stateOf cur) '0').addConstraint condition ∧
      ex'.stateOf ex.nextId =
        (branchEvent (ex.stateOf cur).branchCopy '1').addConstraint
          (createIsZero condition) ∧
      (∀ j, j ≠ cur → j ≠ ex.nextId → ex'.stateOf j = ex.stateOf j) ∧
      ex'.rangingSuspendedStates = ex.rangingSuspendedStates ++ [ex.nextId] ∧
      ex'.addedStates = ex.addedStates ∧
      ex'.states = ex.states ∧
      ex'.nextId = ex.nextId + 1 := by
  have hz := createIsZero_notConst condition hnc
  have hne : ex.nextId ≠ cur := Ne.symm hfresh
  simp only [forkTrueSuspend, stateOf_setState_self, EState.branchCopy_isRecoveryState,
    hnr, Bool.not_false, if_true, Bool.not_true, addConstraintE_notConst _ _ _ hnc,
    addConstraintE_notConst _ _ _ hz, stateOf_modState_self,
    stateOf_modState_ne _ _ _ _ hne, stateOf_modState_ne _ _ _ _ hfresh]
  rw [forkChainCheck_notRec _ _ _ _ _ _ _ (by
    simp [stateOf_modState_self, stateOf_modState_ne _ _ _ _ hne,
      stateOf_modState_ne _ _ _ _ hfresh, stateOf_setState_ne _ _ _ _ hfresh, hnr])]
  refine ⟨_, rfl, ?_, ?_, ?_, by simp, by simp, by simp, by simp⟩
  · simp [stateOf_modState_self, stateOf_modState_ne _ _ _ _ hne,
      stateOf_modState_ne _ _ _ _ hfresh, stateOf_setState_ne _ _ _ _ hfresh]
  · simp [stateOf_modState_self, stateOf_modState_ne _ _ _ _ hne,
      stateOf_modState_ne _ _ _ _ hfresh, stateOf_setState_ne _ _ _ _ hfresh]
  · intro j hj1 hj2
    simp [stateOf_modState_ne _ _ _ _ hj1, stateOf_modState_ne _ _ _ _ hj2,
      stateOf_setState_ne _ _ _ _ hj2]

@[simp] theorem EState.removeFalsePrefixes_depth (s : EState) :
    s.removeFalsePrefixes.depth = s.depth := by
  unfold EState.removeFalsePrefixes; split <;> [rfl; split] <;> [split; rfl] <;> rfl

@[simp] theorem EState.removeFalsePrefixes_branchHist (s : EState) :
    s.removeFalsePrefixes.branchHist = s.branchHist := by
  unfold EState.removeFalsePrefixes; split <;> [rfl; split] <;> [split; rfl] <;> rfl

@[simp] theorem EState.removeFalsePrefixes_typ (s : EState) :
    s.removeFalsePrefixes.typ = s.typ := by
  unfold EState.removeFalsePrefixes; split <;> [rfl; split] <;> [split; rfl] <;> rfl

@[simp] theorem EState.removeFalsePrefixes_constraints (s : EState) :
    s.removeFalsePrefixes.constraints = s.constraints := by
  unfold EState.removeFalsePrefixes; split <;> [rfl; split] <;> [split; rfl] <;> rfl

@[simp] theorem EState.removeFalsePrefixes_isRecoveryState (s : EState) :
    s.removeFalsePrefixes.isRecoveryState = s.isRecoveryState := by
  unfold EState.isRecoveryState; rw [EState.removeFalsePrefixes_typ]

@[simp] theorem EState.removeTruePrefixes_depth (s : EState) :
    s.removeTruePrefixes.depth = s.depth := by
  unfold EState.removeTruePrefixes; split <;> [rfl; split] <;> [split; rfl] <;> rfl

@[simp] theorem EState.removeTruePrefixes_branchHist (s : EState) :
    s.removeTruePrefixes.branchHist = s.branchHist := by
  unfold EState.removeTruePrefixes; split <;> [rfl; split] <;> [split; rfl] <;> rfl

@[simp] theorem EState.removeTruePrefixes_typ (s : EState) :
    s.removeTruePrefixes.typ = s.typ := by
  unfold EState.removeTruePrefixes; split <;> [rfl; split] <;> [split; rfl] <;> rfl

@[simp] theorem EState.removeTruePrefixes_constraints (s : EState) :
    s.removeTruePrefixes.constraints = s.constraints := by
  unfold EState.removeTruePrefixes; split <;> [rfl; split] <;> [split; rfl] <;> rfl

@[simp] theorem EState.removeTruePrefixes_isRecoveryState (s : EState) :
    s.removeTruePrefixes.isRecoveryState = s.isRecoveryState := by
  unfold EState.isRecoveryState; rw [EState.removeTruePrefixes_typ]

/-- Characterization of the take-false-and-suspend-the-true-sibling
outcome of `Executor::fork` on a non-internal branch of a non-recovery
state. -/
theorem forkFalseSuspend_spec (ex : Exec) (cur : Nat) (condition : Expr)
    (fuel : Nat)
    (hnr : (ex.stateOf cur).isRecoveryState = false)
    (hfresh : cur ≠ ex.nextId)
    (hnc : condition.isConst = false) :
    ∃ ex', forkFalseSuspend ex cur condition false fuel =
        some (ex', (some ex.nextId, some cur)) ∧
      ex'.stateOf cur =
        (branchEvent (ex.stateOf cur) '1').addConstraint (createIsZero condition) ∧
      ex'.stateOf ex.nextId =
        (branchEvent (ex.stateOf cur).branchCopy '0').addConstraint condition ∧
      (∀ j, j ≠ cur → j ≠ ex.nextId → ex'.stateOf j = ex.stateOf j) ∧
      ex'.rangingSuspendedStates = ex.rangingSuspendedStates ++ [ex.nextId] ∧
      ex'.addedStates = ex.addedStates ∧
      ex'.states = ex.states ∧
      ex'.nextId = ex.nextId + 1 := by
  have hz := createIsZero_notConst condition hnc
  have hne : ex.nextId ≠ cur := Ne.symm hfresh
  simp only [forkFalseSuspend, stateOf_setState_self, EState.branchCopy_isRecoveryState,
    hnr, Bool.not_false, if_true, Bool.not_true, addConstraintE_notConst _ _ _ hnc,
    addConstraintE_notConst _ _ _ hz, stateOf_modState_self,
    stateOf_modState_ne _ _ _ _ hne, stateOf_modState_ne _ _ _ _ hfresh]
  rw [forkChainCheck_notRec _ _ _ _ _ _ _ (by
    simp [stateOf_modState_self, stateOf_modState_ne _ _ _ _ hne,
      stateOf_modState_ne _ _ _ _ hfresh, stateOf_setState_ne _ _ _ _ hfresh, hnr])]
  refine ⟨_, rfl, ?_, ?_, ?_, by simp, by simp, by simp, by simp⟩
  · simp [stateOf_modState_self, stateOf_modState_ne _ _ _ _ hne,
      stateOf_modState_ne _ _ _ _ hfresh, stateOf_setState_ne _ _ _ _ hfresh]
  · simp [stateOf_modState_self, stateOf_modState_ne _ _ _ _ hne,
      stateOf_modState_ne _ _ _ _ hfresh, stateOf_setState_ne _ _ _ _ hfresh]
  · intro j hj1 hj2
    simp [stateOf_modState_ne _ _ _ _ hj1, stateOf_modState_ne _ _ _ _ hj2,
      stateOf_setState_ne _ _ _ _ hj2]

/-- Characterization of the real-fork (`Solver::Unknown`) outcome of
`Executor::fork` on a non-internal branch of a non-recovery state. -/
theorem forkUnknown_spec (ex : Exec) (cur : Nat) (condition : Expr)
    (coreId : Nat) (fuel : Nat)
    (hnr : (ex.stateOf cur).isRecoveryState = false)
    (hfresh : cur ≠ ex.nextId)
    (hnc : condition.isConst = false) :
    ∃ ex', forkUnknown ex cur condition false coreId fuel =
        some (ex', (some cur, some ex.nextId)) ∧
      ex'.stateOf cur =
        (branchEvent
          (if coreId ≠ 0 then (ex.stateOf cur).removeFalsePrefixes
           else ex.stateOf cur) '0').addConstraint condition ∧
      ex'.stateOf ex.nextId =
        (branchEvent
          (if coreId ≠ 0 then (ex.stateOf cur).branchCopy.removeTruePrefixes
           else (ex.stateOf cur).branchCopy) '1').addConstraint
          (createIsZero condition) ∧
      (∀ j, j ≠ cur → j ≠ ex.nextId → ex'.stateOf j = ex.stateOf j) ∧
      ex'.addedStates = ex.addedStates ++ [ex.nextId] ∧
      ex'.rangingSuspendedStates = ex.rangingSuspendedStates ∧
      ex'.states = ex.states ∧
      ex'.nextId = ex.nextId + 1 := by
  have hz := createIsZero_notConst condition hnc
  have hne : ex.nextId ≠ cur := Ne.symm hfresh
  by_cases hc0 : coreId = 0
  · simp only [forkUnknown, stateOf_setState_self, EState.branchCopy_isRecoveryState,
      hnr, Bool.not_false, if_true, Bool.not_true, ne_eq, hc0, not_true_eq_false,
      if_false, addConstraintE_notConst _ _ _ hnc, addConstraintE_notConst _ _ _ hz,
      stateOf_modState_self, stateOf_modState_ne _ _ _ _ hne,
      stateOf_modState_ne _ _ _ _ hfresh]
    rw [forkChainCheck_notRec _ _ _ _ _ _ _ (by
      simp [stateOf_modState_self, stateOf_modState_ne _ _ _ _ hne,
        stateOf_modState_ne _ _ _ _ hfresh, stateOf_setState_ne _ _ _ _ hfresh, hnr])]
    refine ⟨_, rfl, ?_, ?_, ?_, by simp, by simp, by simp, by simp⟩
    · simp [stateOf_modState_self, stateOf_modState_ne _ _ _ _ hne,
        stateOf_modState_ne _ _ _ _ hfresh, stateOf_setState_ne _ _ _ _ hfresh]
    · simp [stateOf_modState_self, stateOf_modState_ne _ _ _ _ hne,
        stateOf_modState_ne _ _ _ _ hfresh, stateOf_setState_ne _ _ _ _ hfresh]
    · intro j hj1 hj2
      simp [stateOf_modState_ne _ _ _ _ hj1, stateOf_modState_ne _ _ _ _ hj2,
        stateOf_setState_ne _ _ _ _ hj2]
  · simp only [forkUnknown, stateOf_setState_self, EState.branchCopy_isRecoveryState,
      hnr, Bool.not_false, if_true, Bool.not_true, ne_eq, hc0, not_false_eq_true,
      if_false, addConstraintE_notConst _ _ _ hnc, addConstraintE_notConst _ _ _ hz,
      stateOf_modState_self, stateOf_modState_ne _ _ _ _ hne,
      stateOf_modState_ne _ _ _ _ hfresh]
    rw [forkChainCheck_notRec _ _ _ _ _ _ _ (by
      simp [stateOf_modState_self, stateOf_modState_ne _ _ _ _ hne,
        stateOf_modState_ne _ _ _ _ hfresh, stateOf_setState_ne _ _ _ _ hfresh, hnr])]
    refine ⟨_, rfl, ?_, ?_, ?_, by simp, by simp, by simp, by simp⟩
    · simp [stateOf_modState_self, stateOf_modState_ne _ _ _ _ hne,
        stateOf_modState_ne _ _ _ _ hfresh, stateOf_setState_ne _ _ _ _ hfresh]
    · simp [stateOf_modState_self, stateOf_modState_ne _ _ _ _ hne,
        stateOf_modState_ne _ _ _ _ hfresh, stateOf_setState_ne _ _ _ _ hfresh]
    · intro j hj1 hj2
      simp [stateOf_modState_ne _ _ _ _ hj1, stateOf_modState_ne _ _ _ _ hj2,
        stateOf_setState_ne _ _ _ _ hj2]

/-- `shallIRange` holds as soon as the first prefix is longer than the
current depth. -/
theorem shallIRange_of_first (s : EState) (p0 : List Char × Nat)
    (rest : List (List Char × Nat)) (hp : s.prefixes = p0 :: rest)
    (hd : s.depth < p0.2) : s.shallIRange = true := by
  unfold EState.shallIRange
  rw [hp]
  simp only [List.length_cons, List.any_cons]
  rw [if_neg (by simp)]
  simp [hd]

/-- `branchToTake` on prefixes that all agree at the current depth. -/
theorem branchToTake_agree (s : EState) (p0 : List Char × Nat)
    (rest : List (List Char × Nat)) (hp : s.prefixes = p0 :: rest)
    (hd : s.depth < p0.2)
    (hagree : ∀ p ∈ rest, p.1.getD s.depth ' ' = p0.1.getD s.depth ' ') :
    s.branchToTake =
      (if p0.1.getD s.depth ' ' = '0' then some (0, true)
       else if p0.1.getD s.depth ' ' = '1' then some (1, true)
       else if p0.1.getD s.depth ' ' = '2' then some (0, false)
       else if p0.1.getD s.depth ' ' = '3' then some (1, false)
       else none) := by
  unfold EState.branchToTake
  rw [hp]
  dsimp only
  rw [if_pos hd]
  have hdis :
      (rest.any (fun p => p.1.getD s.depth ' ' ≠ p0.1.getD s.depth ' ')) = false := by
    rw [List.any_eq_false]
    intro p hmem
    simpa using hagree p hmem
  rw [if_neg (ne_true_of_eq_false hdis)]

/-- `branchToTake` when some prefix disagrees with the first at the
current depth: a real fork. -/
theorem branchToTake_disagree (s : EState) (p0 : List Char × Nat)
    (rest : List (List Char × Nat)) (hp : s.prefixes = p0 :: rest)
    (hd : s.depth < p0.2)
    (hdis : (rest.any (fun p => p.1.getD s.depth ' ' ≠ p0.1.getD s.depth ' ')) = true) :
    s.branchToTake = some (2, false) := by
  unfold EState.branchToTake
  rw [hp]
  dsimp only
  rw [if_pos hd, if_pos hdis]

/-- The master's fork decision is the solver's verdict. -/
theorem forkDecision_master (s : EState) (isInternal : Bool)
    (solverRes : SolverRes) :
    forkDecision s isInternal 0 solverRes = some (solverRes, false) := by
  simp [forkDecision]

/-- A ranging worker's fork decision on a non-internal branch is read
off `branchToTake`. -/
theorem forkDecision_ranging (s : EState) (coreId : Nat)
    (solverRes : SolverRes) (r : Nat) (fas : Bool)
    (hcore : coreId ≠ 0) (hrange : s.shallIRange = true)
    (hbt : s.branchToTake = some (r, fas)) :
    forkDecision s false coreId solverRes =
      some ((if r = 0 then SolverRes.strue
             else if r = 1 then SolverRes.sfalse
             else SolverRes.sunknown), fas) := by
  unfold forkDecision
  rw [if_neg hcore, if_pos hrange, hbt]
  rfl

/-! ### Claim C1: branch history versus depth -/

/-- C1 counterexample: a ranging worker state whose prefix digit is
`'2'` (take true without forking) appends `'2'` to its branch history
*and* increments `depth` (`Executor.cpp` lines 1333-1337), so after the
event `depth = 1` while the history contains no `'0'`/`'1'` at all:
`depth` does not count only the symbolic-fork events, and appending a
`'2'` does not leave it unchanged. -/
theorem claim_C1_counterexample :
    (fork { stateOf := fun _ => { prefixes := [(['2'], 1)] }, nextId := 1 } 0
        (Expr.var 0) false 1 SolverRes.sunknown 1).map
        (fun r => ((r.1.stateOf 0).depth, (r.1.stateOf 0).branchHist, r.2)) =
      some (1, ['2'], (some 0, none)) ∧
    count01 ['2'] = 0 ∧ ¬ ((1 : Nat) = count01 ['2']) := by
  refine ⟨by decide, by decide, by decide⟩

/-- C1 amended: at every non-internal `Executor::fork` event of a
non-recovery state, each state returned in the pair has its `depth`
incremented by exactly one for the one history character appended —
`'0'`/`'1'` on forks and equally `'2'`/`'3'` on took-without-fork
events — so `depth` tracks the *total* branch-history length, not the
count of `'0'`/`'1'` events. -/
theorem claim_C1_amended (ex : Exec) (cur : Nat) (condition : Expr)
    (coreId : Nat) (solverRes : SolverRes) (fuel : Nat) (ex' : Exec)
    (p : Option Nat × Option Nat)
    (hnr : (ex.stateOf cur).isRecoveryState = false)
    (hfresh : cur ≠ ex.nextId)
    (hnc : condition.isConst = false)
    (hinv : (ex.stateOf cur).depth = (ex.stateOf cur).branchHist.length)
    (hfork : fork ex cur condition false coreId solverRes fuel = some (ex', p)) :
    ∀ j, p.1 = some j ∨ p.2 = some j →
      (ex'.stateOf j).depth = (ex'.stateOf j).branchHist.length := by
  unfold fork at hfork
  cases hd : forkDecision (ex.stateOf cur) false coreId solverRes with
  | none => rw [hd] at hfork; cases hfork
  | some rf =>
    rw [hd] at hfork
    obtain ⟨res, fas⟩ := rf
    dsimp only at hfork
    cases res with
    | strue =>
      dsimp only at hfork
      cases fas with
      | true =>
        rw [if_pos rfl] at hfork
        obtain ⟨exS, hS, hcur, hnew, _, _, _, _, _⟩ :=
          forkTrueSuspend_spec ex cur condition fuel hnr hfresh hnc
        rw [hS] at hfork
        injection hfork with hfork
        injection hfork with hex hp
        subst hex
        intro j hj
        rw [← hp] at hj
        rcases hj with hj | hj <;> injection hj with hj <;> subst hj
        · rw [hcur]; simp [hinv]
        · rw [hnew]; simp [hinv]
      | false =>
        rw [if_neg Bool.false_ne_true] at hfork
        injection hfork with hfork
        injection hfork with hex hp
        subst hex
        intro j hj
        rw [← hp] at hj
        rcases hj with hj | hj
        · injection hj with hj; subst hj
          simp [forkTrueTake, hinv]
        · cases hj
    | sfalse =>
      dsimp only at hfork
      cases fas with
      | true =>
        rw [if_pos rfl] at hfork
        obtain ⟨exS, hS, hcur, hnew, _, _, _, _, _⟩ :=
          forkFalseSuspend_spec ex cur condition fuel hnr hfresh hnc
        rw [hS] at hfork
        injection hfork with hfork
        injection hfork with hex hp
        subst hex
        intro j hj
        rw [← hp] at hj
        rcases hj with hj | hj <;> injection hj with hj <;> subst hj
        · rw [hnew]; simp [hinv]
        · rw [hcur]; simp [hinv]
      | false =>
        rw [if_neg Bool.false_ne_true] at hfork
        injection hfork with hfork
        injection hfork with hex hp
        subst hex
        intro j hj
        rw [← hp] at hj
        rcases hj with hj | hj
        · cases hj
        · injection hj with hj; subst hj
          simp [forkFalseTake, hinv]
    | sunknown =>
      dsimp only at hfork
      obtain ⟨exS, hS, hcur, hnew, _, _, _, _, _⟩ :=
        forkUnknown_spec ex cur condition coreId fuel hnr hfresh hnc
      rw [hS] at hfork
      injection hfork with hfork
      injection hfork with hex hp
      subst hex
      intro j hj
      rw [← hp] at hj
      rcases hj with hj | hj <;> injection hj with hj <;> subst hj
      · rw [hcur]
        by_cases hc : coreId = 0 <;> simp [hc, hinv]
      · rw [hnew]
        by_cases hc : coreId = 0 <;> simp [hc, hinv]

/-- Witness for C1 amended: a concrete master fork on a fresh state. -/
theorem claim_C1_amended_witness :
    ((((fork { stateOf := fun _ => {}, nextId := 1 } 0 (Expr.var 0) false 0
            SolverRes.sunknown 1).getD ({ stateOf := fun _ => {} }, none, none)).1.stateOf
          0).depth =
        (((fork { stateOf := fun _ => {}, nextId := 1 } 0 (Expr.var 0) false 0
              SolverRes.sunknown 1).getD ({ stateOf := fun _ => {} }, none, none)).1.stateOf
            0).branchHist.length) ∧
    ((((fork { stateOf := fun _ => {}, nextId := 1 } 0 (Expr.var 0) false 0
            SolverRes.sunknown 1).getD ({ stateOf := fun _ => {} }, none, none)).1.stateOf
          1).depth =
        (((fork { stateOf := fun _ => {}, nextId := 1 } 0 (Expr.var 0) false 0
              SolverRes.sunknown 1).getD ({ stateOf := fun _ => {} }, none, none)).1.stateOf
            1).branchHist.length) := by
  have h := claim_C1_amended { stateOf := fun _ => {}, nextId := 1 } 0 (Expr.var 0)
    0 SolverRes.sunknown 1
    (((fork { stateOf := fun _ => {}, nextId := 1 } 0 (Expr.var 0) false 0
        SolverRes.sunknown 1).getD ({ stateOf := fun _ => {} }, none, none)).1)
    (some 0, some 1) (by decide) (by decide) (by decide) (by decide)
    (by rfl)
  exact ⟨h 0 (Or.inl rfl), h 1 (Or.inr rfl)⟩

/-! ### Claim C2: prefix-guided branch selection -/

/-- C2: for a ranging worker state (non-empty prefixes, depth below the
first prefix's length) at a non-internal fork, the branch direction
comes from the prefix instead of the solver: if all prefixes agree on
digit `'0'` the true branch is taken and the false sibling is forked
into the suspended pool (not the scheduler); `'1'` symmetrically takes
false and suspends the true sibling; `'2'`/`'3'` take true/false with
no fork at all; and if any prefix disagrees with the first at the
current depth, a real solver-style fork is performed with the sibling
scheduled. -/
theorem claim_C2 (ex : Exec) (cur coreId : Nat) (condition : Expr)
    (solverRes : SolverRes) (fuel : Nat) (p0 : List Char × Nat)
    (rest : List (List Char × Nat))
    (hcore : coreId ≠ 0)
    (hp : (ex.stateOf cur).prefixes = p0 :: rest)
    (hdp : (ex.stateOf cur).depth < p0.2)
    (hnr : (ex.stateOf cur).isRecoveryState = false)
    (hfresh : cur ≠ ex.nextId)
    (hnc : condition.isConst = false) :
    ((∀ p ∈ p0 :: rest, p.1.getD (ex.stateOf cur).depth ' ' = '0') →
      ∃ ex', fork ex cur condition false coreId solverRes fuel =
          some (ex', (some cur, some ex.nextId)) ∧
        (ex'.stateOf cur).branchHist = (ex.stateOf cur).branchHist ++ ['0'] ∧
        (ex'.stateOf ex.nextId).branchHist = (ex.stateOf cur).branchHist ++ ['1'] ∧
        (ex'.stateOf cur).constraints = (ex.stateOf cur).constraints ++ [condition] ∧
        (ex'.stateOf ex.nextId).constraints =
          (ex.stateOf cur).constraints ++ [createIsZero condition] ∧
        ex'.rangingSuspendedStates = ex.rangingSuspendedStates ++ [ex.nextId] ∧
        ex'.addedStates = ex.addedStates) ∧
    ((∀ p ∈ p0 :: rest, p.1.getD (ex.stateOf cur).depth ' ' = '1') →
      ∃ ex', fork ex cur condition false coreId solverRes fuel =
          some (ex', (some ex.nextId, some cur)) ∧
        (ex'.stateOf ex.nextId).branchHist = (ex.stateOf cur).branchHist ++ ['0'] ∧
        (ex'.stateOf cur).branchHist = (ex.stateOf cur).branchHist ++ ['1'] ∧
        (ex'.stateOf ex.nextId).constraints =
          (ex.stateOf cur).constraints ++ [condition] ∧
        (ex'.stateOf cur).constraints =
          (ex.stateOf cur).constraints ++ [createIsZero condition] ∧
        ex'.rangingSuspendedStates = ex.rangingSuspendedStates ++ [ex.nextId] ∧
        ex'.addedStates = ex.addedStates) ∧
    ((∀ p ∈ p0 :: rest, p.1.getD (ex.stateOf cur).depth ' ' = '2') →
      ∃ ex', fork ex cur condition false coreId solverRes fuel =
          some (ex', (some cur, none)) ∧
        (ex'.stateOf cur).branchHist = (ex.stateOf cur).branchHist ++ ['2'] ∧
        (ex'.stateOf cur).constraints = (ex.stateOf cur).constraints ∧
        ex'.nextId = ex.nextId ∧
        ex'.rangingSuspendedStates = ex.rangingSuspendedStates ∧
        ex'.addedStates = ex.addedStates) ∧
    ((∀ p ∈ p0 :: rest, p.1.getD (ex.stateOf cur).depth ' ' = '3') →
      ∃ ex', fork ex cur condition false coreId solverRes fuel =
          some (ex', (none, some cur)) ∧
        (ex'.stateOf cur).branchHist = (ex.stateOf cur).branchHist ++ ['3'] ∧
        (ex'.stateOf cur).constraints = (ex.stateOf cur).constraints ∧
        ex'.nextId = ex.nextId ∧
        ex'.rangingSuspendedStates = ex.rangingSuspendedStates ∧
        ex'.addedStates = ex.addedStates) ∧
    ((rest.any (fun p =>
        p.1.getD (ex.stateOf cur).depth ' ' ≠ p0.1.getD (ex.stateOf cur).depth ' ')) = true →
      ∃ ex', fork ex cur condition false coreId solverRes fuel =
          some (ex', (some cur, some ex.nextId)) ∧
        (ex'.stateOf cur).branchHist = (ex.stateOf cur).branchHist ++ ['0'] ∧
        (ex'.stateOf ex.nextId).branchHist = (ex.stateOf cur).branchHist ++ ['1'] ∧
        (ex'.stateOf cur).constraints = (ex.stateOf cur).constraints ++ [condition] ∧
        (ex'.stateOf ex.nextId).constraints =
          (ex.stateOf cur).constraints ++ [createIsZero condition] ∧
        ex'.addedStates = ex.addedStates ++ [ex.nextId] ∧
        ex'.rangingSuspendedStates = ex.rangingSuspendedStates) := by
  have hrange := shallIRange_of_first (ex.stateOf cur) p0 rest hp hdp
  refine ⟨?_, ?_, ?_, ?_, ?_⟩
  · intro hdig
    have hagree : ∀ p ∈ rest,
        p.1.getD (ex.stateOf cur).depth ' ' = p0.1.getD (ex.stateOf cur).depth ' ' := by
      intro p hm
      rw [hdig p (List.mem_cons_of_mem _ hm), hdig p0 (List.mem_cons_self _ _)]
    have hbt := branchToTake_agree (ex.stateOf cur) p0 rest hp hdp hagree
    rw [hdig p0 (List.mem_cons_self _ _)] at hbt
    simp only [if_true] at hbt
    have hdec := forkDecision_ranging (ex.stateOf cur) coreId solverRes 0 true
      hcore hrange (by simpa using hbt)
    simp only [if_pos rfl] at hdec
    obtain ⟨ex', hS, hcur, hnew, _, hrs, has, _, _⟩ :=
      forkTrueSuspend_spec ex cur condition fuel hnr hfresh hnc
    refine ⟨ex', ?_, ?_, ?_, ?_, ?_, hrs, has⟩
    · unfold fork
      rw [hdec]
      dsimp only
      rw [if_pos rfl]
      exact hS
    · rw [hcur]; simp
    · rw [hnew]; simp
    · rw [hcur]; simp
    · rw [hnew]; simp
  · intro hdig
    have hagree : ∀ p ∈ rest,
        p.1.getD (ex.stateOf cur).depth ' ' = p0.1.getD (ex.stateOf cur).depth ' ' := by
      intro p hm
      rw [hdig p (List.mem_cons_of_mem _ hm), hdig p0 (List.mem_cons_self _ _)]
    have hbt := branchToTake_agree (ex.stateOf cur) p0 rest hp hdp hagree
    rw [hdig p0 (List.mem_cons_self _ _)] at hbt
    simp only [if_pos rfl, if_neg (by decide : ¬('1' : Char) = '0')] at hbt
    have hdec := forkDecision_ranging (ex.stateOf cur) coreId solverRes 1 true
      hcore hrange (by simpa using hbt)
    simp only [if_neg (by decide : ¬(1 : Nat) = 0), if_pos rfl] at hdec
    obtain ⟨ex', hS, hcur, hnew, _, hrs, has, _, _⟩ :=
      forkFalseSuspend_spec ex cur condition fuel hnr hfresh hnc
    refine ⟨ex', ?_, ?_, ?_, ?_, ?_, hrs, has⟩
    · unfold fork
      rw [hdec]
      dsimp only
      rw [if_pos rfl]
      exact hS
    · rw [hnew]; simp
    · rw [hcur]; simp
    · rw [hnew]; simp
    · rw [hcur]; simp
  · intro hdig
    have hagree : ∀ p ∈ rest,
        p.1.getD (ex.stateOf cur).depth ' ' = p0.1.getD (ex.stateOf cur).depth ' ' := by
      intro p hm
      rw [hdig p (List.mem_cons_of_mem _ hm), hdig p0 (List.mem_cons_self _ _)]
    have hbt := branchToTake_agree (ex.stateOf cur) p0 rest hp hdp hagree
    rw [hdig p0 (List.mem_cons_self _ _)] at hbt
    simp only [if_neg (by decide : ¬('2' : Char) = '0'),
      if_neg (by decide : ¬('2' : Char) = '1'), if_pos rfl] at hbt
    have hdec := forkDecision_ranging (ex.stateOf cur) coreId solverRes 0 false
      hcore hrange (by simpa using hbt)
    simp only [if_pos rfl] at hdec
    refine ⟨modState ex cur (fun t => branchEvent t '2'), ?_, ?_, ?_, by simp,
      by simp, by simp⟩
    · unfold fork
      rw [hdec]
      dsimp only
      rw [if_neg Bool.false_ne_true]
      rfl
    · simp [stateOf_modState_self]
    · simp [stateOf_modState_self]
  · intro hdig
    have hagree : ∀ p ∈ rest,
        p.1.getD (ex.stateOf cur).depth ' ' = p0.1.getD (ex.stateOf cur).depth ' ' := by
      intro p hm
      rw [hdig p (List.mem_cons_of_mem _ hm), hdig p0 (List.mem_cons_self _ _)]
    have hbt := branchToTake_agree (ex.stateOf cur) p0 rest hp hdp hagree
    rw [hdig p0 (List.mem_cons_self _ _)] at hbt
    simp only [if_neg (by decide : ¬('3' : Char) = '0'),
      if_neg (by decide : ¬('3' : Char) = '1'),
      if_neg (by decide : ¬('3' : Char) = '2'), if_pos rfl] at hbt
    have hdec := forkDecision_ranging (ex.stateOf cur) coreId solverRes 1 false
      hcore hrange (by simpa using hbt)
    simp only [if_neg (by decide : ¬(1 : Nat) = 0), if_pos rfl] at hdec
    refine ⟨modState ex cur (fun t => branchEvent t '3'), ?_, ?_, ?_, by simp,
      by simp, by simp⟩
    · unfold fork
      rw [hdec]
      dsimp only
      rw [if_neg Bool.false_ne_true]
      rfl
    · simp [stateOf_modState_self]
    · simp [stateOf_modState_self]
  · intro hdis
    have hbt := branchToTake_disagree (ex.stateOf cur) p0 rest hp hdp hdis
    have hdec := forkDecision_ranging (ex.stateOf cur) coreId solverRes 2 false
      hcore hrange hbt
    simp only [if_neg (by decide : ¬(2 : Nat) = 0),
      if_neg (by decide : ¬(2 : Nat) = 1)] at hdec
    obtain ⟨ex', hS, hcur, hnew, _, has, hrs, _, _⟩ :=
      forkUnknown_spec ex cur condition coreId fuel hnr hfresh hnc
    refine ⟨ex', ?_, ?_, ?_, ?_, ?_, has, hrs⟩
    · unfold fork
      rw [hdec]
      dsimp only
      exact hS
    · rw [hcur, if_pos hcore]; simp
    · rw [hnew, if_pos hcore]; simp
    · rw [hcur, if_pos hcore]; simp
    · rw [hnew, if_pos hcore]; simp

/-- Witness for C2: a worker state with a single guiding prefix `"0"`. -/
theorem claim_C2_witness :
    ∃ ex', fork { stateOf := fun _ => { prefixes := [(['0'], 1)] }, nextId := 1 } 0
        (Expr.var 0) false 1 SolverRes.sunknown 9 =
        some (ex', (some 0, some 1)) ∧
      (ex'.stateOf 0).branchHist = [] ++ ['0'] ∧
      (ex'.stateOf 1).branchHist = [] ++ ['1'] ∧
      (ex'.stateOf 0).constraints = [] ++ [Expr.var 0] ∧
      (ex'.stateOf 1).constraints = [] ++ [createIsZero (Expr.var 0)] ∧
      ex'.rangingSuspendedStates = [] ++ [1] ∧
      ex'.addedStates = [] :=
  (claim_C2 { stateOf := fun _ => { prefixes := [(['0'], 1)] }, nextId := 1 } 0 1
    (Expr.var 0) SolverRes.sunknown 9 (['0'], 1) [] (by decide) rfl (by decide)
    (by decide) (by decide) (by decide)).1 (by decide)

/-! ### Claim C7: fork soundness -/

/-- C7: every solver-driven (`Unknown`) non-internal fork on condition
`c` adds `c` to the true child's path constraints and the negation of
`c` to the false child's, extends the true child's branch history with
`'0'` and the false child's with `'1'`, and increments both depths by
one (shown here on the master, whose decision is always the solver's;
`ExecutionState::branch` and the constraint manager are modelled from
the spec as a reference-sharing copy and an ordered constraint list). -/
theorem claim_C7 (ex : Exec) (cur : Nat) (condition : Expr) (fuel : Nat)
    (hnr : (ex.stateOf cur).isRecoveryState = false)
    (hfresh : cur ≠ ex.nextId)
    (hnc : condition.isConst = false) :
    ∃ ex', fork ex cur condition false 0 SolverRes.sunknown fuel =
        some (ex', (some cur, some ex.nextId)) ∧
      (ex'.stateOf cur).constraints = (ex.stateOf cur).constraints ++ [condition] ∧
      (ex'.stateOf ex.nextId).constraints =
        (ex.stateOf cur).constraints ++ [createIsZero condition] ∧
      (ex'.stateOf cur).branchHist = (ex.stateOf cur).branchHist ++ ['0'] ∧
      (ex'.stateOf ex.nextId).branchHist = (ex.stateOf cur).branchHist ++ ['1'] ∧
      (ex'.stateOf cur).depth = (ex.stateOf cur).depth + 1 ∧
      (ex'.stateOf ex.nextId).depth = (ex.stateOf cur).depth + 1 ∧
      ex'.addedStates = ex.addedStates ++ [ex.nextId] := by
  obtain ⟨ex', hS, hcur, hnew, _, has, _, _, _⟩ :=
    forkUnknown_spec ex cur condition 0 fuel hnr hfresh hnc
  rw [if_neg (by simp)] at hcur
  rw [if_neg (by simp)] at hnew
  refine ⟨ex', ?_, ?_, ?_, ?_, ?_, ?_, ?_, has⟩
  · unfold fork
    rw [forkDecision_master]
    dsimp only
    exact hS
  · rw [hcur]; simp
  · rw [hnew]; simp
  · rw [hcur]; simp
  · rw [hnew]; simp
  · rw [hcur]; simp
  · rw [hnew]; simp

/-- Witness for C7: a concrete master fork. -/
theorem claim_C7_witness :
    ∃ ex', fork { stateOf := fun _ => {}, nextId := 1 } 0 (Expr.var 3) false 0
        SolverRes.sunknown 1 = some (ex', (some 0, some 1)) ∧
      (ex'.stateOf 0).constraints = [] ++ [Expr.var 3] ∧
      (ex'.stateOf 1).constraints = [] ++ [createIsZero (Expr.var 3)] ∧
      (ex'.stateOf 0).branchHist = [] ++ ['0'] ∧
      (ex'.stateOf 1).branchHist = [] ++ ['1'] ∧
      (ex'.stateOf 0).depth = 0 + 1 ∧
      (ex'.stateOf 1).depth = 0 + 1 ∧
      ex'.addedStates = [] ++ [1] :=
  claim_C7 { stateOf := fun _ => {}, nextId := 1 } 0 (Expr.var 3) 1
    (by decide) (by decide) (by decide)

/-! ### Claim C6: recovery-cache filtering -/

theorem filterRev_pending (loadAddr : Nat) :
    ∀ (l : List RecoveryInfo) (s : EState),
      (filterRecoveryInfosRev s loadAddr l).1.pendingRecoveryInfos =
        s.pendingRecoveryInfos := by
  intro l
  induction l with
  | nil => intro s; rfl
  | cons ri rest ih =>
    intro s
    unfold filterRecoveryInfosRev
    cases hc : s.getRecoveredValue ri.snapshotIndex ri.sliceId loadAddr with
    | some cached =>
      cases cached with
      | some v => rfl
      | none => exact ih _
    | none => exact ih _

theorem filterRev_preserves_cached (loadAddr : Nat) :
    ∀ (l : List RecoveryInfo) (s : EState) (a b : Nat) (e : Option Expr),
      s.getRecoveredValue a b loadAddr = some e →
      (filterRecoveryInfosRev s loadAddr l).1.getRecoveredValue a b loadAddr =
        some e := by
  intro l
  induction l with
  | nil => intro s a b e h; exact h
  | cons ri rest ih =>
    intro s a b e h
    unfold filterRecoveryInfosRev
    cases hc : s.getRecoveredValue ri.snapshotIndex ri.sliceId loadAddr with
    | some cached =>
      cases cached with
      | some v =>
        simpa [EState.getRecoveredValue_addRecovered] using h
      | none =>
        exact ih _ a b e (by rwa [EState.getRecoveredValue_addRecovered])
    | none =>
      have hkey : (a, b) ≠ (ri.snapshotIndex, ri.sliceId) := by
        intro hk
        rw [show a = ri.snapshotIndex from congrArg Prod.fst hk,
          show b = ri.sliceId from congrArg Prod.snd hk, hc] at h
        cases h
      exact ih _ a b e (by
        rw [EState.getRecoveredValue_update_ne_key _ _ _ _ _ _ _ _ hkey]
        exact h)

theorem filterRev_kept_subset (loadAddr : Nat) :
    ∀ (l : List RecoveryInfo) (s : EState) (x : RecoveryInfo),
      x ∈ (filterRecoveryInfosRev s loadAddr l).2.1 → x ∈ l := by
  intro l
  induction l with
  | nil => intro s x h; cases h
  | cons ri rest ih =>
    intro s x h
    unfold filterRecoveryInfosRev at h
    cases hc : s.getRecoveredValue ri.snapshotIndex ri.sliceId loadAddr with
    | some cached =>
      rw [hc] at h
      cases cached with
      | some v => cases h
      | none => exact List.mem_cons_of_mem _ (ih _ x h)
    | none =>
      rw [hc] at h
      dsimp only at h
      rcases List.mem_append.mp h with h | h
      · exact List.mem_cons_of_mem _ (ih _ x h)
      · rw [List.mem_singleton.mp h]
        exact List.mem_cons_self _ _

theorem filterRev_kept_uncached (loadAddr : Nat) :
    ∀ (l : List RecoveryInfo) (s : EState) (x : RecoveryInfo),
      x ∈ (filterRecoveryInfosRev s loadAddr l).2.1 →
      s.getRecoveredValue x.snapshotIndex x.sliceId loadAddr = none := by
  intro l
  induction l with
  | nil => intro s x h; cases h
  | cons ri rest ih =>
    intro s x h
    unfold filterRecoveryInfosRev at h
    cases hc : s.getRecoveredValue ri.snapshotIndex ri.sliceId loadAddr with
    | some cached =>
      rw [hc] at h
      cases cached with
      | some v => cases h
      | none =>
        have := ih _ x h
        rwa [EState.getRecoveredValue_addRecovered] at this
    | none =>
      rw [hc] at h
      dsimp only at h
      rcases List.mem_append.mp h with h | h
      · have := ih _ x h
        by_cases hkey :
            (x.snapshotIndex, x.sliceId) = (ri.snapshotIndex, ri.sliceId)
        · rw [show x.snapshotIndex = ri.snapshotIndex from congrArg Prod.fst hkey,
            show x.sliceId = ri.sliceId from congrArg Prod.snd hkey]
          exact hc
        · rwa [EState.getRecoveredValue_update_ne_key _ _ _ _ _ _ _ _ hkey]
          at this
      · rw [List.mem_singleton.mp h]
        exact hc

theorem filterRev_uncached_enqueued (loadAddr : Nat) :
    ∀ (l1 : List RecoveryInfo) (ri : RecoveryInfo) (l2 : List RecoveryInfo)
      (s : EState),
      (((l1 ++ ri :: l2).map (fun r => (r.snapshotIndex, r.sliceId))).Nodup) →
      s.getRecoveredValue ri.snapshotIndex ri.sliceId loadAddr = none →
      (∀ rj ∈ l1, ∀ v,
        s.getRecoveredValue rj.snapshotIndex rj.sliceId loadAddr ≠ some (some v)) →
      (filterRecoveryInfosRev s loadAddr (l1 ++ ri :: l2)).2.1.count ri = 1 ∧
      (filterRecoveryInfosRev s loadAddr
        (l1 ++ ri :: l2)).1.getRecoveredValue ri.snapshotIndex ri.sliceId
          loadAddr = some none := by
  intro l1
  induction l1 with
  | nil =>
    intro ri l2 s hnd hc _
    rw [List.nil_append] at hnd ⊢
    unfold filterRecoveryInfosRev
    rw [hc]
    dsimp only
    constructor
    · rw [List.count_append]
      have hnotin : ri ∉ (filterRecoveryInfosRev
          (s.updateRecoveredValue ri.snapshotIndex ri.sliceId loadAddr none)
          loadAddr l2).2.1 := by
        intro hmem
        have hin2 := filterRev_kept_subset loadAddr l2 _ ri hmem
        rw [List.map_cons, List.nodup_cons] at hnd
        exact hnd.1 (List.mem_map.mpr ⟨ri, hin2, rfl⟩)
      rw [List.count_eq_zero.mpr hnotin]
      simp
    · exact filterRev_preserves_cached loadAddr l2 _ _ _ _
        (EState.getRecoveredValue_update_self s _ _ _ _)
  | cons rj l1t ih =>
    intro ri l2 s hnd hc hnomod
    rw [List.cons_append] at hnd ⊢
    have hndt : (((l1t ++ ri :: l2).map
        (fun r => (r.snapshotIndex, r.sliceId))).Nodup) := by
      rw [List.map_cons, List.nodup_cons] at hnd
      exact hnd.2
    have hkeyne : (ri.snapshotIndex, ri.sliceId) ≠ (rj.snapshotIndex, rj.sliceId) := by
      rw [List.map_cons, List.nodup_cons] at hnd
      intro hk
      exact hnd.1 (by
        rw [← hk]
        exact List.mem_map.mpr ⟨ri, by simp, rfl⟩)
    have hrine : ri ≠ rj := fun h => hkeyne (by rw [h])
    unfold filterRecoveryInfosRev
    cases hcj : s.getRecoveredValue rj.snapshotIndex rj.sliceId loadAddr with
    | some cached =>
      cases cached with
      | some v => exact absurd hcj (hnomod rj (List.mem_cons_self _ _) v)
      | none =>
        have hc' : (s.addRecoveredAddress loadAddr).getRecoveredValue
            ri.snapshotIndex ri.sliceId loadAddr = none := by
          rwa [EState.getRecoveredValue_addRecovered]
        have hnomod' : ∀ rk ∈ l1t, ∀ v,
            (s.addRecoveredAddress loadAddr).getRecoveredValue
              rk.snapshotIndex rk.sliceId loadAddr ≠ some (some v) := by
          intro rk hm v
          rw [EState.getRecoveredValue_addRecovered]
          exact hnomod rk (List.mem_cons_of_mem _ hm) v
        exact ih ri l2 _ hndt hc' hnomod'
    | none =>
      dsimp only
      set s' := s.updateRecoveredValue rj.snapshotIndex rj.sliceId loadAddr none
        with hs'
      have hc' : s'.getRecoveredValue ri.snapshotIndex ri.sliceId loadAddr = none := by
        rw [hs', EState.getRecoveredValue_update_ne_key _ _ _ _ _ _ _ _ hkeyne]
        exact hc
      have hnomod' : ∀ rk ∈ l1t, ∀ v,
          s'.getRecoveredValue rk.snapshotIndex rk.sliceId loadAddr ≠
            some (some v) := by
        intro rk hm v
        by_cases hkk : (rk.snapshotIndex, rk.sliceId) = (rj.snapshotIndex, rj.sliceId)
        · rw [hs', show rk.snapshotIndex = rj.snapshotIndex from congrArg Prod.fst hkk,
            show rk.sliceId = rj.sliceId from congrArg Prod.snd hkk,
            EState.getRecoveredValue_update_self]
          intro h
          cases h
        · rw [hs', EState.getRecoveredValue_update_ne_key _ _ _ _ _ _ _ _ hkk]
          exact hnomod rk (List.mem_cons_of_mem _ hm) v
      obtain ⟨ihc, ihm⟩ := ih ri l2 s' hndt hc' hnomod'
      constructor
      · rw [List.count_append, ihc]
        simp [List.count_singleton, hrine]
      · exact ihm

/-- C6 counterexample: with `recoveryCache = {((1,7), 100) ↦ 5}` and
`required = [⟨idx 0, slice 3⟩, ⟨idx 1, slice 7⟩]`, the reverse walk hits
the cached *modifying* entry `(1,7)` first and `break`s, so the
uncached triple `(0,3,100)` is neither enqueued on
`pendingRecoveryInfos` nor memoized as pending — contradicting the
claim that an uncached triple is always enqueued exactly once and
memoized. -/
theorem claim_C6_counterexample :
    (getAllRecoveryInfoFilter
        { recoveryCache := [((1, 7), [(100, some (Expr.const 5))])] } 100
        [{ snapshotIndex := 0, sliceId := 3 },
         { snapshotIndex := 1, sliceId := 7 }]).1.pendingRecoveryInfos = [] ∧
    (getAllRecoveryInfoFilter
        { recoveryCache := [((1, 7), [(100, some (Expr.const 5))])] } 100
        [{ snapshotIndex := 0, sliceId := 3 },
         { snapshotIndex := 1, sliceId := 7 }]).1.getRecoveredValue 0 3 100 =
      none := by
  constructor <;> rfl

/-- C6 amended: a triple already in the recovery cache (concrete value
or pending marker) is never enqueued again — every newly enqueued entry
was uncached at call entry.  An uncached triple is enqueued exactly
once and memoized as pending, *provided* no cached modifying hit at a
later snapshot stops the reverse walk first; entries past such a hit
are dropped without being enqueued or memoized (as the counterexample
shows). -/
theorem claim_C6_amended (s : EState) (loadAddr : Nat)
    (required : List RecoveryInfo) :
    (∀ x ∈ (getAllRecoveryInfoFilter s loadAddr required).1.pendingRecoveryInfos,
        x ∉ s.pendingRecoveryInfos →
        s.getRecoveredValue x.snapshotIndex x.sliceId loadAddr = none) ∧
    (∀ r1 ri r2, required = r1 ++ ri :: r2 →
        ((required.map (fun r => (r.snapshotIndex, r.sliceId))).Nodup) →
        s.getRecoveredValue ri.snapshotIndex ri.sliceId loadAddr = none →
        (∀ rj ∈ r2, ∀ v,
          s.getRecoveredValue rj.snapshotIndex rj.sliceId loadAddr ≠
            some (some v)) →
        (getAllRecoveryInfoFilter s loadAddr
            required).1.pendingRecoveryInfos.count ri =
          s.pendingRecoveryInfos.count ri + 1 ∧
        (getAllRecoveryInfoFilter s loadAddr required).1.getRecoveredValue
          ri.snapshotIndex ri.sliceId loadAddr = some none) := by
  constructor
  · intro x hx hnot
    unfold getAllRecoveryInfoFilter at hx
    dsimp only at hx
    rw [filterRev_pending] at hx
    rcases List.mem_append.mp hx with hx | hx
    · exact filterRev_kept_uncached loadAddr required.reverse s x hx
    · exact absurd hx hnot
  · intro r1 ri r2 hreq hnd hc hnomod
    have hrev : required.reverse = r2.reverse ++ ri :: r1.reverse := by
      rw [hreq]
      simp
    have hndrev : (((r2.reverse ++ ri :: r1.reverse).map
        (fun r => (r.snapshotIndex, r.sliceId))).Nodup) := by
      have : ((required.reverse.map
          (fun r => (r.snapshotIndex, r.sliceId))).Nodup) := by
        rw [List.map_reverse]
        exact (List.nodup_reverse).mpr hnd
      rwa [hrev] at this
    have hnomodrev : ∀ rj ∈ r2.reverse, ∀ v,
        s.getRecoveredValue rj.snapshotIndex rj.sliceId loadAddr ≠
          some (some v) := by
      intro rj hm
      exact hnomod rj (List.mem_reverse.mp hm)
    obtain ⟨hcount, hmem⟩ :=
      filterRev_uncached_enqueued loadAddr r2.reverse ri r1.reverse s hndrev hc
        hnomodrev
    constructor
    · unfold getAllRecoveryInfoFilter
      dsimp only
      rw [filterRev_pending, List.count_append, hrev, hcount]
      omega
    · unfold getAllRecoveryInfoFilter
      dsimp only
      rw [hrev]
      exact hmem

/-- Witness for C6 amended: one uncached triple is enqueued once and
memoized as pending. -/
theorem claim_C6_amended_witness :
    (getAllRecoveryInfoFilter ({} : EState) 100
        [{ snapshotIndex := 0, sliceId := 3 }]).1.pendingRecoveryInfos.count
        { snapshotIndex := 0, sliceId := 3 } =
      ({} : EState).pendingRecoveryInfos.count
        { snapshotIndex := 0, sliceId := 3 } + 1 ∧
    (getAllRecoveryInfoFilter ({} : EState) 100
        [{ snapshotIndex := 0, sliceId := 3 }]).1.getRecoveredValue 0 3 100 =
      some none :=
  (claim_C6_amended {} 100 [{ snapshotIndex := 0, sliceId := 3 }]).2 []
    { snapshotIndex := 0, sliceId := 3 } [] rfl (by decide) (by decide)
    (by intro rj h; cases h)

/-! ### Claim C4: recovery-state exit protocol -/

/-- Characterization of `Executor::replicateBranchHist` when the
`assert` holds. -/
theorem replicateBranchHist_spec (ex : Exec) (src dst : Nat)
    (h : (ex.stateOf dst).depth ≤ (ex.stateOf src).depth) :
    ∃ ex', replicateBranchHist ex src dst = some ex' ∧
      ex'.stateOf dst =
        { ex.stateOf dst with
          branchHist := (ex.stateOf dst).branchHist ++
            (ex.stateOf src).branchHist.drop (ex.stateOf dst).branchHist.length,
          depth := (ex.stateOf src).depth,
          prefixes := (ex.stateOf src).prefixes } ∧
      (∀ j, j ≠ dst → ex'.stateOf j = ex.stateOf j) ∧
      ex'.states = ex.states ∧ ex'.addedStates = ex.addedStates ∧
      ex'.removedStates = ex.removedStates ∧
      ex'.resumedStates = ex.resumedStates ∧
      ex'.nextId = ex.nextId := by
  unfold replicateBranchHist
  rw [if_pos h]
  exact ⟨_, rfl, by simp, fun j hj => by simp [hj], by simp, by simp, by simp,
    by simp, by simp⟩

/-- Characterization of `Executor::startRecoveryState` for a
first-snapshot recovery info on a non-recovery dependent with no
guiding constraints. -/
theorem startRecoveryState_spec (ex : Exec) (i : Nat) (ri : RecoveryInfo)
    (hsnap0 : ri.snapshotIndex = 0)
    (hnrec : (ex.stateOf i).isRecoveryState = false)
    (hifresh : i ≠ ex.nextId)
    (hguid : (ex.stateOf i).guidingConstraints = [])
    (hsnapd : (ex.stateOf ri.snapshotStateId).depth ≤ (ex.stateOf i).depth) :
    ∃ ex', startRecoveryState ex i ri = some ex' ∧
      (ex'.stateOf ex.nextId).recoveryInfo = some ri ∧
      (ex'.stateOf ex.nextId).dependentState = some i ∧
      (ex'.stateOf ex.nextId).isRecoveryState = true ∧
      (ex'.stateOf ex.nextId).priority = 1 ∧
      (ex'.stateOf i).recoveryState = some ex.nextId ∧
      (ex'.stateOf i).suspendStatus = (ex.stateOf i).suspendStatus ∧
      (ex'.stateOf i).pendingRecoveryInfos = (ex.stateOf i).pendingRecoveryInfos ∧
      (ex'.stateOf i).allocationRecord = (ex.stateOf i).allocationRecord ∧
      (ex'.stateOf i).depth = (ex.stateOf i).depth ∧
      ex'.addedStates = ex.addedStates ++ [ex.nextId] ∧
      ex'.removedStates = ex.removedStates ∧
      ex'.resumedStates = ex.resumedStates ∧
      ex'.states = ex.states ∧
      ex'.nextId = ex.nextId + 1 ∧
      (∀ j, j ≠ i → j ≠ ex.nextId → ex'.stateOf j = ex.stateOf j) := by
  have hne : ex.nextId ≠ i := Ne.symm hifresh
  unfold startRecoveryState
  rw [if_neg (by simp [hsnap0])]
  dsimp only
  rw [if_neg (ne_true_of_eq_false hnrec)]
  dsimp only
  rw [hguid]
  dsimp only [addConstraintList]
  rw [hsnap0]
  rw [if_pos rfl]
  rw [if_pos (by simpa using hsnapd)]
  refine ⟨_, rfl, ?_, ?_, ?_, ?_, ?_, ?_, ?_, ?_, ?_, by simp, by simp, by simp,
    by simp, by simp, ?_⟩
  · rw [stateOf_modState_ne _ _ _ _ hne, stateOf_setState_self]
  · rw [stateOf_modState_ne _ _ _ _ hne, stateOf_setState_self]
  · rw [stateOf_modState_ne _ _ _ _ hne, stateOf_setState_self]
    simp [EState.isRecoveryState]
  · rw [stateOf_modState_ne _ _ _ _ hne, stateOf_setState_self]
  · rw [stateOf_modState_self]
  · rw [stateOf_modState_self, stateOf_setState_ne _ _ _ _ hifresh]
  · rw [stateOf_modState_self, stateOf_setState_ne _ _ _ _ hifresh]
  · rw [stateOf_modState_self, stateOf_setState_ne _ _ _ _ hifresh]
  · rw [stateOf_modState_self, stateOf_setState_ne _ _ _ _ hifresh]
  · intro j hj1 hj2
    rw [stateOf_modState_ne _ _ _ _ hj1, stateOf_setState_ne _ _ _ _ hj2]

/-- Characterization of `Executor::resumeState` for a previously
scheduled (non-implicitly-created) non-recovery dependent. -/
theorem resumeState_spec (ex : Exec) (i recId : Nat)
    (hrec : (ex.stateOf i).isRecoveryState = false)
    (hne : recId ≠ i)
    (hdepth : (ex.stateOf i).depth ≤ (ex.stateOf recId).depth) :
    ∃ ex', resumeState ex i false recId = some ex' ∧
      (ex'.stateOf i).suspendStatus = false ∧
      (ex'.stateOf i).blockingLoadStatus = false ∧
      (ex'.stateOf i).recoveryState = none ∧
      (ex'.stateOf i).allocationRecord = (ex.stateOf i).allocationRecord ∧
      ex'.resumedStates = ex.resumedStates ++ [i] ∧
      ex'.addedStates = ex.addedStates ∧
      ex'.removedStates = ex.removedStates ∧
      ex'.states = ex.states ∧
      (∀ j, j ≠ i → ex'.stateOf j = ex.stateOf j) := by
  unfold resumeState
  rw [if_pos (by simp [hrec])]
  dsimp only
  rw [if_neg Bool.false_ne_true]
  have hd : (({ modState { ex with nonRecoveryStates := insertSet ex.nonRecoveryStates i } i (fun s => { s with suspendStatus := false, recoveryState := none, blockingLoadStatus := false }) with resumedStates := (modState { ex with nonRecoveryStates := insertSet ex.nonRecoveryStates i } i (fun s => { s with suspendStatus := false, recoveryState := none, blockingLoadStatus := false })).resumedStates ++ [i] }).stateOf i).depth ≤ (({ modState { ex with nonRecoveryStates := insertSet ex.nonRecoveryStates i } i (fun s => { s with suspendStatus := false, recoveryState := none, blockingLoadStatus := false }) with resumedStates := (modState { ex with nonRecoveryStates := insertSet ex.nonRecoveryStates i } i (fun s => { s with suspendStatus := false, recoveryState := none, blockingLoadStatus := false })).resumedStates ++ [i] }).stateOf recId).depth := by
    show ((modState { ex with nonRecoveryStates := insertSet ex.nonRecoveryStates i } i (fun s => { s with suspendStatus := false, recoveryState := none, blockingLoadStatus := false })).stateOf i).depth ≤ ((modState { ex with nonRecoveryStates := insertSet ex.nonRecoveryStates i } i (fun s => { s with suspendStatus := false, recoveryState := none, blockingLoadStatus := false })).stateOf recId).depth
    rw [stateOf_modState_self, stateOf_modState_ne _ _ _ _ hne]
    simpa using hdepth
  obtain ⟨ex', hrep, hdst, hother, hst, hadd, hrem, hres, _⟩ :=
    replicateBranchHist_spec ({ modState { ex with nonRecoveryStates := insertSet ex.nonRecoveryStates i } i (fun s => { s with suspendStatus := false, recoveryState := none, blockingLoadStatus := false }) with resumedStates := (modState { ex with nonRecoveryStates := insertSet ex.nonRecoveryStates i } i (fun s => { s with suspendStatus := false, recoveryState := none, blockingLoadStatus := false })).resumedStates ++ [i] }) recId i hd
  refine ⟨ex', ?_, ?_, ?_, ?_, ?_, ?_, ?_, ?_, ?_, ?_⟩
  · exact hrep
  · rw [hdst]; simp [stateOf_modState_self]
  · rw [hdst]; simp [stateOf_modState_self]
  · rw [hdst]; simp [stateOf_modState_self]
  · rw [hdst]; simp [stateOf_modState_self]
  · rw [hres]; rfl
  · rw [hadd]; rfl
  · rw [hrem]; rfl
  · rw [hst]; rfl
  · intro j hj
    rw [hother j hj, stateOf_modState_ne _ _ _ _ hj]

/-- Characterization of `Executor::terminateState` for a state that has
already reached the searcher. -/
theorem terminateState_spec (ex : Exec) (i : Nat) (h : i ∉ ex.addedStates) :
    (terminateState ex i).removedStates = ex.removedStates ++ [i] ∧
    (∀ j, j ≠ i → (terminateState ex i).stateOf j = ex.stateOf j) ∧
    (terminateState ex i).addedStates = ex.addedStates ∧
    (terminateState ex i).resumedStates = ex.resumedStates ∧
    (terminateState ex i).states = ex.states := by
  unfold terminateState
  dsimp only
  rw [if_neg (by simpa using h)]
  exact ⟨by simp, fun j hj => by simp [hj], by simp, by simp, by simp⟩

/-- C4: when a recovery state reaches its exit instruction: if its
dependent still has pending recovery infos, the head of that queue is
popped and a fresh high-priority recovery state is started for it while
the dependent remains suspended; otherwise the dependent is notified —
the allocation record is transferred up when the finishing recovery
state is also a normal state, the dependent is marked resumed with its
blocking-load flag cleared and its recovery link severed, and it is
re-added to the scheduler via `resumedStates`; in both cases the
finishing recovery state itself is terminated. -/
theorem claim_C4 (ex : Exec) (i depId : Nat)
    (hdep : (ex.stateOf i).dependentState = some depId)
    (hdne : depId ≠ i)
    (hifresh : i ≠ ex.nextId)
    (hdfresh : depId ≠ ex.nextId)
    (hinotadded : i ∉ ex.addedStates)
    (hdeprec : (ex.stateOf depId).isRecoveryState = false)
    (hdepth : (ex.stateOf depId).depth ≤ (ex.stateOf i).depth) :
    (∀ ri rest, (ex.stateOf depId).pendingRecoveryInfos = ri :: rest →
      ri.snapshotIndex = 0 →
      (ex.stateOf depId).guidingConstraints = [] →
      ri.snapshotStateId ≠ depId →
      (ex.stateOf ri.snapshotStateId).depth ≤ (ex.stateOf i).depth →
      ∃ exF, onRecoveryStateExit ex i = some exF ∧
        (exF.stateOf depId).pendingRecoveryInfos = rest ∧
        (exF.stateOf depId).suspendStatus = (ex.stateOf depId).suspendStatus ∧
        (exF.stateOf depId).recoveryState = some ex.nextId ∧
        (exF.stateOf ex.nextId).recoveryInfo = some ri ∧
        (exF.stateOf ex.nextId).dependentState = some depId ∧
        (exF.stateOf ex.nextId).isRecoveryState = true ∧
        (exF.stateOf ex.nextId).priority = 1 ∧
        ex.nextId ∈ exF.addedStates ∧
        i ∈ exF.removedStates) ∧
    ((ex.stateOf depId).pendingRecoveryInfos = [] →
      depId ∈ ex.states →
      ∃ exF, onRecoveryStateExit ex i = some exF ∧
        ((ex.stateOf i).isNormalState = true →
          (exF.stateOf depId).allocationRecord = (ex.stateOf i).allocationRecord) ∧
        (exF.stateOf depId).suspendStatus = false ∧
        (exF.stateOf depId).blockingLoadStatus = false ∧
        (exF.stateOf depId).recoveryState = none ∧
        exF.resumedStates = ex.resumedStates ++ [depId] ∧
        i ∈ exF.removedStates) := by
  constructor
  · intro ri rest hpend hsnap0 hguid hsne hsnapd
    unfold onRecoveryStateExit
    rw [hdep]
    dsimp only
    rw [hpend]
    dsimp only
    set exA := modState ex depId
      (fun d => { d with pendingRecoveryInfos := rest }) with hexA
    have hdA : (exA.stateOf depId).depth ≤ (exA.stateOf i).depth := by
      simp only [hexA, stateOf_modState_self,
        stateOf_modState_ne _ _ _ _ (Ne.symm hdne)]
      simpa using hdepth
    obtain ⟨exB, hrepB, hdstB, hotherB, hstB, haddB, hremB, hresB, hnidB⟩ :=
      replicateBranchHist_spec exA i depId hdA
    rw [hrepB]
    dsimp only
    have hnidA : exA.nextId = ex.nextId := by rw [hexA]; rfl
    have hBdep : exB.stateOf depId =
        { exA.stateOf depId with
          branchHist := (exA.stateOf depId).branchHist ++
            (exA.stateOf i).branchHist.drop
              (exA.stateOf depId).branchHist.length,
          depth := (exA.stateOf i).depth,
          prefixes := (exA.stateOf i).prefixes } := hdstB
    have hrecB : (exB.stateOf depId).isRecoveryState = false := by
      rw [hBdep]
      unfold EState.isRecoveryState at hdeprec ⊢
      simp only [hexA, stateOf_modState_self]
      simpa using hdeprec
    have hguidB : (exB.stateOf depId).guidingConstraints = [] := by
      rw [hBdep]
      simp only [hexA, stateOf_modState_self]
      simpa using hguid
    have hdfreshB : depId ≠ exB.nextId := by rw [hnidB, hnidA]; exact hdfresh
    have hsnapdB : (exB.stateOf ri.snapshotStateId).depth ≤
        (exB.stateOf depId).depth := by
      rw [hotherB _ hsne, hBdep]
      simp only [hexA, stateOf_modState_self, stateOf_modState_ne _ _ _ _ hsne,
        stateOf_modState_ne _ _ _ _ (Ne.symm hdne)]
      simpa using hsnapd
    obtain ⟨exC, hstart, hri, hdepC, hisrecC, hprioC, hrsC, hsusC, hpendC,
      hallocC, hdepthC, haddC, hremC, hresC, hstC, hnidC, hotherC⟩ :=
      startRecoveryState_spec exB depId ri hsnap0 hrecB hdfreshB hguidB hsnapdB
    rw [hstart]
    dsimp only
    have hNB : exB.nextId = ex.nextId := by rw [hnidB, hnidA]
    have hiaddC : i ∉ exC.addedStates := by
      rw [haddC, haddB, hexA, hNB]
      simp only [List.mem_append, List.mem_singleton]
      rintro (h | h)
      · exact hinotadded (by simpa using h)
      · exact hifresh h
    obtain ⟨htrem, htother, htadd, htres, htst⟩ := terminateState_spec exC i hiaddC
    refine ⟨terminateState exC i, rfl, ?_, ?_, ?_, ?_, ?_, ?_, ?_, ?_, ?_⟩
    · rw [htother depId hdne, hpendC, hBdep]
      simp [hexA, stateOf_modState_self]
    · rw [htother depId hdne, hsusC, hBdep]
      simp [hexA, stateOf_modState_self]
    · rw [htother depId hdne, hrsC, hNB]
    · rw [htother ex.nextId (Ne.symm hifresh), ← hNB, hri]
    · rw [htother ex.nextId (Ne.symm hifresh), ← hNB, hdepC]
    · rw [htother ex.nextId (Ne.symm hifresh), ← hNB, hisrecC]
    · rw [htother ex.nextId (Ne.symm hifresh), ← hNB, hprioC]
    · rw [htadd, haddC, haddB, hexA, hNB]
      simp
    · rw [htrem]
      simp
  · intro hpend hdepin
    unfold onRecoveryStateExit
    rw [hdep]
    dsimp only
    rw [hpend]
    dsimp only
    unfold notifyDependentState
    rw [hdep]
    dsimp only
    by_cases hnorm : (ex.stateOf i).isNormalState = true
    · rw [if_pos hnorm]
      set exAl := modState ex depId
        (fun d => { d with allocationRecord := (ex.stateOf i).allocationRecord })
        with hexAl
      rw [if_pos (by rw [hexAl]; simpa using hdepin)]
      have hrecAl : (exAl.stateOf depId).isRecoveryState = false := by
        unfold EState.isRecoveryState at hdeprec ⊢
        simp only [hexAl, stateOf_modState_self]
        simpa using hdeprec
      have hdAl : (exAl.stateOf depId).depth ≤ (exAl.stateOf i).depth := by
        simp only [hexAl, stateOf_modState_self,
          stateOf_modState_ne _ _ _ _ (Ne.symm hdne)]
        simpa using hdepth
      obtain ⟨exR, hres, hsus, hblk, hrs, halloc, hresumed, hadd, hrem, hst,
        hother⟩ := resumeState_spec exAl depId i hrecAl (Ne.symm hdne) hdAl
      rw [hres]
      dsimp only
      have hiaddR : i ∉ exR.addedStates := by
        rw [hadd]
        simpa [hexAl] using hinotadded
      obtain ⟨htrem, htother, _, htres, _⟩ := terminateState_spec exR i hiaddR
      refine ⟨terminateState exR i, rfl, ?_, ?_, ?_, ?_, ?_, ?_⟩
      · intro _
        rw [htother depId hdne, halloc]
        simp [hexAl, stateOf_modState_self]
      · rw [htother depId hdne, hsus]
      · rw [htother depId hdne, hblk]
      · rw [htother depId hdne, hrs]
      · rw [htres, hresumed]
        simp [hexAl]
      · rw [htrem]
        simp
    · rw [if_neg hnorm]
      rw [if_pos hdepin]
      have hdAl : (ex.stateOf depId).depth ≤ (ex.stateOf i).depth := hdepth
      obtain ⟨exR, hres, hsus, hblk, hrs, halloc, hresumed, hadd, hrem, hst,
        hother⟩ := resumeState_spec ex depId i hdeprec (Ne.symm hdne) hdAl
      rw [hres]
      dsimp only
      have hiaddR : i ∉ exR.addedStates := by
        rw [hadd]
        exact hinotadded
      obtain ⟨htrem, htother, _, htres, _⟩ := terminateState_spec exR i hiaddR
      refine ⟨terminateState exR i, rfl, ?_, ?_, ?_, ?_, ?_, ?_⟩
      · intro h
        exact absurd h hnorm
      · rw [htother depId hdne, hsus]
      · rw [htother depId hdne, hblk]
      · rw [htother depId hdne, hrs]
      · rw [htres, hresumed]
      · rw [htrem]
        simp

/-- Witness for C4 at a concrete two-state heap: recovery state `0`
exits with its dependent `1` having no pending recovery infos. -/
theorem claim_C4_witness :
    ∃ exF, onRecoveryStateExit
        { stateOf := fun j =>
            if j = 0 then
              { typ := 3, dependentState := some 1, depth := 2,
                allocationRecord := 7 }
            else { typ := 1, suspendStatus := true, depth := 1 },
          states := [1], nextId := 5 } 0 = some exF ∧
      (((⟨fun j =>
            if j = 0 then
              { typ := 3, dependentState := some 1, depth := 2,
                allocationRecord := 7 }
            else { typ := 1, suspendStatus := true, depth := 1 },
          [1], [], [], [], [], [], [], [], [], 5, false, false, false,
          false⟩ : Exec).stateOf 0).isNormalState = true →
        (exF.stateOf 1).allocationRecord = 7) ∧
      (exF.stateOf 1).suspendStatus = false ∧
      (exF.stateOf 1).blockingLoadStatus = false ∧
      (exF.stateOf 1).recoveryState = none ∧
      exF.resumedStates = [] ++ [1] ∧
      0 ∈ exF.removedStates := by
  obtain ⟨exF, h1, h2, h3, h4, h5, h6, h7⟩ :=
    (claim_C4
      { stateOf := fun j =>
          if j = 0 then
            { typ := 3, dependentState := some 1, depth := 2,
              allocationRecord := 7 }
          else { typ := 1, suspendStatus := true, depth := 1 },
        states := [1], nextId := 5 } 0 1 (by simp) (by decide) (by decide)
      (by decide) (by simp) (by simp [EState.isRecoveryState]) (by simp)).2
      (by simp) (by simp)
  exact ⟨exF, h1, fun h => by simpa using h2 h, h3, h4, h5, h6, h7⟩

/-! ### Claim C10: the `branchToTake` alphabet precondition -/

/-- C10: `ExecutionState::branchToTake` produces a branch decision only
when the first prefix's digit at the current depth is one of
`'0','1','2','3'`, or when some prefix disagrees with the first at that
depth; when all prefixes agree on a digit outside this alphabet the
function reaches its end without returning a value (undefined result,
modelled as `none`), so callers need every guiding prefix to range over
`{'0','1','2','3'}` at every consulted depth. -/
theorem claim_C10 (s : EState) (p0 : List Char × Nat)
    (rest : List (List Char × Nat)) (hp : s.prefixes = p0 :: rest)
    (hd : s.depth < p0.2) :
    (∀ r, s.branchToTake = some r →
        p0.1.getD s.depth ' ' ∈ (['0', '1', '2', '3'] : List Char) ∨
          ∃ p ∈ rest, p.1.getD s.depth ' ' ≠ p0.1.getD s.depth ' ') ∧
    ((∀ p ∈ rest, p.1.getD s.depth ' ' = p0.1.getD s.depth ' ') →
        p0.1.getD s.depth ' ' ∉ (['0', '1', '2', '3'] : List Char) →
        s.branchToTake = none) := by
  constructor
  · intro r hr
    unfold EState.branchToTake at hr
    rw [hp] at hr
    dsimp only at hr
    rw [if_pos hd] at hr
    by_cases hdis :
        (rest.any (fun p => p.1.getD s.depth ' ' ≠ p0.1.getD s.depth ' ')) = true
    · right
      simpa using hdis
    · left
      rw [if_neg (by simpa using hdis)] at hr
      by_cases h0 : p0.1.getD s.depth ' ' = '0'
      · rw [h0]; decide
      by_cases h1 : p0.1.getD s.depth ' ' = '1'
      · rw [h1]; decide
      by_cases h2 : p0.1.getD s.depth ' ' = '2'
      · rw [h2]; decide
      by_cases h3 : p0.1.getD s.depth ' ' = '3'
      · rw [h3]; decide
      rw [if_neg h0, if_neg h1, if_neg h2, if_neg h3] at hr
      exact absurd hr (by simp)
  · intro hagree hout
    unfold EState.branchToTake
    rw [hp]
    dsimp only
    rw [if_pos hd]
    have hdis :
        (rest.any (fun p => p.1.getD s.depth ' ' ≠ p0.1.getD s.depth ' ')) = false := by
      rw [List.any_eq_false]
      intro p hmem
      simpa using hagree p hmem
    have h0 : ¬ p0.1.getD s.depth ' ' = '0' := fun h => hout (by rw [h]; decide)
    have h1 : ¬ p0.1.getD s.depth ' ' = '1' := fun h => hout (by rw [h]; decide)
    have h2 : ¬ p0.1.getD s.depth ' ' = '2' := fun h => hout (by rw [h]; decide)
    have h3 : ¬ p0.1.getD s.depth ' ' = '3' := fun h => hout (by rw [h]; decide)
    rw [if_neg (ne_true_of_eq_false hdis), if_neg h0, if_neg h1, if_neg h2,
      if_neg h3]

/-- Witness for C10 at a concrete state whose single prefix holds the
out-of-alphabet digit `'4'`. -/
theorem claim_C10_witness :
    ({ prefixes := [(['4'], 1)] } : EState).branchToTake = none :=
  (claim_C10 { prefixes := [(['4'], 1)] } (['4'], 1) [] rfl (by decide)).2
    (by intro p hp; cases hp) (by decide)

/-! ### Claim C5: write propagation during recovery -/

/-- C5: during a recovery state's execution, a store whose constant
address equals the recovery's blocking-load address writes the value
through to the corresponding object of the dependent state's address
space and records it in the dependent's recovery cache under
`(snapshotIndex, sliceId, loadAddr)`; a store to any other concrete
address leaves the dependent state untouched. -/
theorem claim_C5 (ex : Exec) (i depId mo storeAddr off : Nat) (value : Expr)
    (ri : RecoveryInfo) (os : List (Nat × Expr))
    (hri : (ex.stateOf i).recoveryInfo = some ri)
    (hdep : (ex.stateOf i).dependentState = some depId)
    (hos : lookupA (ex.stateOf depId).addressSpace mo = some os) :
    (storeAddr = ri.loadAddr →
      ∃ ex', onRecoveryStateWrite ex i (Expr.const storeAddr) mo
          (Expr.const off) value = some ex' ∧
        lookupA (ex'.stateOf depId).addressSpace mo = some (setA os off value) ∧
        (ex'.stateOf depId).getRecoveredValue ri.snapshotIndex ri.sliceId
          storeAddr = some (some value) ∧
        ∀ j, j ≠ depId → ex'.stateOf j = ex.stateOf j) ∧
    (storeAddr ≠ ri.loadAddr →
      onRecoveryStateWrite ex i (Expr.const storeAddr) mo
        (Expr.const off) value = some ex) := by
  constructor
  · intro heq
    simp only [onRecoveryStateWrite, hri, hdep, hos, heq, ne_eq,
      not_true_eq_false, if_false]
    refine ⟨_, rfl, ?_, ?_, ?_⟩
    · simp [EState.updateRecoveredValue, lookupA_setA_self]
    · rw [stateOf_setState_self]
      exact EState.getRecoveredValue_update_self _ _ _ _ _
    · intro j hj
      simp [hj]
  · intro hne
    simp only [onRecoveryStateWrite, hri, hdep, hos, hne, ne_eq,
      not_false_eq_true, if_true]

/-- Witness for C5: a concrete recovery state writing to its blocking
load address `7`, with the dependent state holding object `3`. -/
theorem claim_C5_witness :
    (∃ ex', onRecoveryStateWrite
        { stateOf := fun j =>
            if j = 0 then
              { typ := 2,
                recoveryInfo := some { loadAddr := 7, snapshotIndex := 1, sliceId := 4 },
                dependentState := some 1 }
            else { addressSpace := [(3, [(0, Expr.const 9)])] } }
        0 (Expr.const 7) 3 (Expr.const 0) (Expr.const 42) = some ex' ∧
      lookupA (ex'.stateOf 1).addressSpace 3 =
        some (setA [(0, Expr.const 9)] 0 (Expr.const 42)) ∧
      (ex'.stateOf 1).getRecoveredValue 1 4 7 = some (some (Expr.const 42)) ∧
      ∀ j, j ≠ 1 → ex'.stateOf j =
        Exec.stateOf
          { stateOf := fun j =>
              if j = 0 then
                { typ := 2,
                  recoveryInfo := some { loadAddr := 7, snapshotIndex := 1, sliceId := 4 },
                  dependentState := some 1 }
              else { addressSpace := [(3, [(0, Expr.const 9)])] } } j) :=
  (claim_C5
    { stateOf := fun j =>
        if j = 0 then
          { typ := 2,
            recoveryInfo := some { loadAddr := 7, snapshotIndex := 1, sliceId := 4 },
            dependentState := some 1 }
        else { addressSpace := [(3, [(0, Expr.const 9)])] } }
    0 1 3 7 0 (Expr.const 42) { loadAddr := 7, snapshotIndex := 1, sliceId := 4 }
    [(0, Expr.const 9)] (by simp) (by simp) (by simp [lookupA])).1 rfl

/-! ### Claim C9: failed offload requests leave the worker untouched -/

/-- C9: when an `OFFLOAD` request arrives while the worker is not ready
to offload, is halting, or has fewer than 4 non-suspended live states,
the reply is the single failure byte `'x'` and the live state set,
searcher contents and both suspended pools are unchanged. -/
theorem claim_C9 (ex : Exec)
    (h : (ex.ready2Offload = false ∨ ex.haltExecution = true ∨
          ex.haltFromMaster = true) ∨
         (ex.removedStates = [] ∧
          (ex.states.filter (fun i => !(ex.stateOf i).suspendStatus)).length < 4)) :
    ∃ ex', newCheck2Offload ex = some (ex', ['x']) ∧
      ex'.states = ex.states ∧
      ex'.searcherStates = ex.searcherStates ∧
      ex'.rangingSuspendedStates = ex.rangingSuspendedStates ∧
      ex'.prefixSuspendedStatesMap = ex.prefixSuspendedStatesMap ∧
      ex'.suspendedStatesVec = ex.suspendedStatesVec ∧
      ∀ j, ex'.stateOf j = ex.stateOf j := by
  have hoffload : offloadFromStatesVector ex = some ([], some 0) ∨
      offloadFromStatesVector ex = some ([], none) := by
    unfold offloadFromStatesVector
    rcases h with h | ⟨hrem, hlen⟩
    · right
      rcases h with h | h | h <;> simp [h]
    · by_cases hg : !ex.haltExecution && !ex.haltFromMaster && ex.ready2Offload
      · left
        simp only [hg, if_true]
        simp [hrem, hlen]
      · right
        simp [hg]
  refine ⟨{ ex with waiting4OffloadReq := false }, ?_, rfl, rfl, rfl, rfl, rfl,
    fun j => rfl⟩
  unfold newCheck2Offload
  rcases hoffload with h' | h' <;> rw [h'] <;> simp

/-- Witness for C9: a halting worker with one live state replies `'x'`
and keeps its state. -/
theorem claim_C9_witness :
    ∃ ex', newCheck2Offload
        { stateOf := fun _ => {}, states := [5], haltExecution := true } =
          some (ex', ['x']) ∧
      ex'.states = [5] :=
  match claim_C9 { stateOf := fun _ => {}, states := [5], haltExecution := true }
      (Or.inl (Or.inr (Or.inl rfl))) with
  | ⟨ex', h1, h2, _⟩ => ⟨ex', h1, by rw [h2]⟩

/-! ### Claim C3: the offload protocol -/

theorem foldlMin_le_init (g : Nat → Nat) (l : List Nat) (a : Nat) :
    l.foldl (fun m j => min m (g j)) a ≤ a := by
  induction l generalizing a with
  | nil => exact le_refl a
  | cons b rest ih =>
    exact le_trans (ih (min a (g b))) (min_le_left _ _)

theorem foldlMin_le_mem (g : Nat → Nat) (l : List Nat) (b : Nat)
    (hb : b ∈ l) : ∀ a, l.foldl (fun m j => min m (g j)) a ≤ g b := by
  induction l with
  | nil => cases hb
  | cons c rest ih =>
    intro a
    rcases List.mem_cons.mp hb with h | h
    · subst h
      exact le_trans (foldlMin_le_init g rest _) (min_le_right _ _)
    · exact ih h _

theorem le_foldlMin (g : Nat → Nat) (l : List Nat) (a c : Nat)
    (ha : c ≤ a) (hl : ∀ b ∈ l, c ≤ g b) :
    c ≤ l.foldl (fun m j => min m (g j)) a := by
  induction l generalizing a with
  | nil => exact ha
  | cons b rest ih =>
    exact ih (min a (g b)) (le_min ha (hl b (by simp)))
      (fun x hx => hl x (by simp [hx]))

theorem minHistLen_le (ex : Exec) (l : List Nat) (i : Nat) (hi : i ∈ l) :
    minHistLen ex l ≤ (ex.stateOf i).branchHist.length := by
  cases l with
  | nil => cases hi
  | cons j rest =>
    rcases List.mem_cons.mp hi with h | h
    · subst h
      exact foldlMin_le_init (fun j => (ex.stateOf j).branchHist.length) rest _
    · exact foldlMin_le_mem (fun j => (ex.stateOf j).branchHist.length) rest _ h _

theorem le_minHistLen (ex : Exec) (l : List Nat) (c : Nat) (hne : l ≠ [])
    (h : ∀ i ∈ l, c ≤ (ex.stateOf i).branchHist.length) :
    c ≤ minHistLen ex l := by
  cases l with
  | nil => exact absurd rfl hne
  | cons i rest =>
    exact le_foldlMin (fun j => (ex.stateOf j).branchHist.length) rest _ c
      (h i (by simp)) (fun b hb => h b (by simp [hb]))

theorem getD_of_drop_cons {h : List Char} {x : Nat} {a : Char}
    {t : List Char} (hd : h.drop x = a :: t) : h.getD x ' ' = a := by
  have h1 : h[x]? = some a := by
    have := List.getElem?_drop h x 0
    rw [hd] at this
    simpa using this.symm
  rw [List.getD_eq_getElem?_getD, h1]
  rfl

theorem drop_succ_of_drop_cons {h : List Char} {x : Nat} {a : Char}
    {t : List Char} (hd : h.drop x = a :: t) : h.drop (x + 1) = t := by
  have : h.drop (x + 1) = (h.drop x).drop 1 := by
    rw [List.drop_drop, Nat.add_comm]
  rw [this, hd]
  rfl

/-- The LCP loop of `newCheck2Offload` produces a common pr. of every
selected history (read from position `x` on), provided the bound keeps
all reads in range. -/
theorem commonPrefFrom_isPrefixAll (bound : Nat) :
    ∀ (hists : List (List Char)) (x : Nat) (h : List Char), h ∈ hists →
      (∀ h' ∈ hists, x + bound ≤ h'.length) →
      commonPrefFrom hists x bound <+: h.drop x := by
  induction bound with
  | zero =>
    intro hists x h hh hlen
    simp [commonPrefFrom]
  | succ b ih =>
    intro hists x h hh hlen
    match hists, hh with
    | h0 :: rest, hh =>
      show (if rest.all (fun h => h.getD x ' ' = h0.getD x ' ') then
          h0.getD x ' ' :: commonPrefFrom (h0 :: rest) (x + 1) b
        else []) <+: h.drop x
      by_cases hall : rest.all (fun h => h.getD x ' ' = h0.getD x ' ') = true
      · rw [if_pos hall]
        have hxlt : x < h.length := by
          have := hlen h hh
          omega
        have hdrop : h.drop x = h[x] :: h.drop (x + 1) :=
          List.drop_eq_getElem_cons hxlt
        have hgd : h.getD x ' ' = h[x] := by
          rw [List.getD_eq_getElem?_getD, List.getElem?_eq_getElem hxlt]
          rfl
        have hval : h.getD x ' ' = h0.getD x ' ' := by
          rcases List.mem_cons.mp hh with h1 | h1
          · rw [h1]
          · simpa using List.all_eq_true.mp hall h h1
        have hrec : commonPrefFrom (h0 :: rest) (x + 1) b <+: h.drop (x + 1) :=
          ih (h0 :: rest) (x + 1) h hh (fun h' hh' => by
            have := hlen h' hh'
            omega)
        obtain ⟨u, hu⟩ := hrec
        refine ⟨u, ?_⟩
        rw [hdrop, ← hgd, hval]
        simpa using congrArg (List.cons (h0.getD x ' ')) hu
      · rw [if_neg hall]
        exact List.nil_prefix

/-- The LCP loop is maximal: any common pr. of all the selected
histories, no longer than the loop bound, is no longer than its
output. -/
theorem commonPrefFrom_longest (l : List Char) :
    ∀ (bound x : Nat) (h0 : List Char) (rest : List (List Char)),
      (∀ h ∈ h0 :: rest, l <+: h.drop x) → l.length ≤ bound →
      l.length ≤ (commonPrefFrom (h0 :: rest) x bound).length := by
  induction l with
  | nil => simp
  | cons a t ih =>
    intro bound x h0 rest hpre hlen
    cases bound with
    | zero => simp at hlen
    | succ b =>
      have hdropEq : ∀ h ∈ h0 :: rest, ∃ s, h.drop x = a :: (t ++ s) := by
        intro h hh
        obtain ⟨u, hu⟩ := hpre h hh
        exact ⟨u, by rw [← hu]; simp⟩
      have hval : ∀ h ∈ h0 :: rest, h.getD x ' ' = a := by
        intro h hh
        obtain ⟨s, hs⟩ := hdropEq h hh
        exact getD_of_drop_cons hs
      have hall : rest.all (fun h => h.getD x ' ' = h0.getD x ' ') = true := by
        rw [List.all_eq_true]
        intro h hh
        exact decide_eq_true
          (by rw [hval h (List.mem_cons_of_mem _ hh), hval h0 (by simp)])
      show (a :: t).length ≤
        (if rest.all (fun h => h.getD x ' ' = h0.getD x ' ') then
            h0.getD x ' ' :: commonPrefFrom (h0 :: rest) (x + 1) b
          else []).length
      rw [if_pos hall]
      have hrec : t.length ≤ (commonPrefFrom (h0 :: rest) (x + 1) b).length := by
        refine ih b (x + 1) h0 rest ?_ (by simpa using hlen)
        intro h hh
        obtain ⟨s, hs⟩ := hdropEq h hh
        rw [drop_succ_of_drop_cons hs]
        exact ⟨s, rfl⟩
      simpa using hrec

/-- `offloadFromStatesVector` on the ready, matching-frontier path keeps
the first quarter of the frontier and recomputes the minimum history
length over it. -/
theorem offloadFromStatesVector_spec (ex : Exec)
    (hready : ex.ready2Offload = true)
    (hhalt : ex.haltExecution = false)
    (hhm : ex.haltFromMaster = false)
    (hrem : ex.removedStates = [])
    (hlen : 4 ≤ (ex.states.filter (fun i => !(ex.stateOf i).suspendStatus)).length)
    (hle : (ex.states.filter (fun i => !(ex.stateOf i).suspendStatus)).length ≤ 64) :
    offloadFromStatesVector ex =
      some (offloadKept ex, some (minHistLen ex (offloadKept ex))) := by
  unfold offloadFromStatesVector
  rw [hready, hhalt, hhm, hrem]
  simp only [Bool.not_false, Bool.and_self, Bool.and_true, if_true, ne_eq,
    not_true_eq_false, if_false, reduceIte]
  rw [if_neg (by omega), if_neg (by omega)]
  rfl

/-- The state-removal loop at the end of `newCheck2Offload`, written as
three independent field updates. -/
theorem offloadFold_spec (l : List Nat) (e : Exec) :
    l.foldl (fun e i =>
        { e with
          states := e.states.erase i,
          rangingSuspendedStates := e.rangingSuspendedStates ++ [i],
          removedStates := e.removedStates.erase i }) e =
      { e with
        states := l.foldl (fun s i => s.erase i) e.states,
        rangingSuspendedStates := e.rangingSuspendedStates ++ l,
        removedStates := l.foldl (fun s i => s.erase i) e.removedStates } := by
  induction l generalizing e with
  | nil => simp
  | cons a t ih =>
    simp only [List.foldl_cons]
    rw [ih]
    simp [List.append_assoc]

theorem foldl_erase_nil (l : List Nat) :
    l.foldl (fun s i => s.erase i) ([] : List Nat) = [] := by
  induction l with
  | nil => rfl
  | cons a t ih => simpa using ih

/-- `newCheck2Offload` on the success path: the composite message and
the exact bookkeeping on the surrendered states. -/
theorem newCheck2Offload_spec (ex : Exec)
    (hready : ex.ready2Offload = true)
    (hhalt : ex.haltExecution = false)
    (hhm : ex.haltFromMaster = false)
    (hrem : ex.removedStates = [])
    (hlen : 4 ≤ (ex.states.filter (fun i => !(ex.stateOf i).suspendStatus)).length)
    (hle : (ex.states.filter (fun i => !(ex.stateOf i).suspendStatus)).length ≤ 64) :
    newCheck2Offload ex =
      some ({ ex with
          searcherStates :=
            ex.searcherStates.filter (fun i => !(offloadKept ex).contains i),
          states := (offloadKept ex).foldl (fun s i => s.erase i) ex.states,
          rangingSuspendedStates := ex.rangingSuspendedStates ++ offloadKept ex,
          removedStates :=
            (offloadKept ex).foldl (fun s i => s.erase i) ex.removedStates,
          waiting4OffloadReq := false },
        commonPref ((offloadKept ex).map (fun i => (ex.stateOf i).branchHist))
            (minHistLen ex (offloadKept ex)) ++
          ((offloadKept ex).map (fun i => '-' ::
            ((ex.stateOf i).branchHist.drop
              (commonPref ((offloadKept ex).map
                  (fun i => (ex.stateOf i).branchHist))
                (minHistLen ex (offloadKept ex))).length))).flatten) := by
  have hk : 0 < (offloadKept ex).length := by
    unfold offloadKept
    rw [List.length_take]
    omega
  unfold newCheck2Offload
  rw [offloadFromStatesVector_spec ex hready hhalt hhm hrem hlen hle]
  dsimp only
  rw [if_pos hk]
  rw [offloadFold_spec]
  rfl

/-- The filing loop of `Executor::updateStates` only reads branch
histories, which it never changes: its effect on
`prefixSuspendedStatesMap` in terms of the initial states. -/
theorem mapRangingFold_pool (l : List Nat) (e : Exec)
    (hist : Nat → List Char) (hh : ∀ i, (e.stateOf i).branchHist = hist i) :
    (l.foldl (fun e i =>
        let path := canonicalHist (e.stateOf i).branchHist
        let e := modState e i (fun s => { s with prefixes := [] })
        { e with prefixSuspendedStatesMap :=
            insertMapNoOverwrite e.prefixSuspendedStatesMap path i }) e
      ).prefixSuspendedStatesMap =
      l.foldl (fun m i => insertMapNoOverwrite m (canonicalHist (hist i)) i)
        e.prefixSuspendedStatesMap := by
  induction l generalizing e with
  | nil => rfl
  | cons a t ih =>
    simp only [List.foldl_cons]
    rw [ih]
    · dsimp only [modState, setState]
      rw [hh a]
    · intro i
      by_cases hia : i = a
      · subst hia
        simp [modState, setState, hh]
      · simp [modState, setState, hia, hh]

/-- The ranging-suspension block of `updateStates`: each queued state is
filed under the canonical form of its branch history (first writer
wins), and the queue is emptied. -/
theorem mapRangingSuspendedStates_spec (ex : Exec) :
    (mapRangingSuspendedStates ex).prefixSuspendedStatesMap =
      ex.rangingSuspendedStates.foldl (fun m i =>
        insertMapNoOverwrite m (canonicalHist ((ex.stateOf i).branchHist)) i)
        ex.prefixSuspendedStatesMap ∧
    (mapRangingSuspendedStates ex).rangingSuspendedStates = [] := by
  constructor
  · show (({ ex.rangingSuspendedStates.foldl _ ex with
        rangingSuspendedStates := [] } : Exec)).prefixSuspendedStatesMap = _
    exact mapRangingFold_pool ex.rangingSuspendedStates ex
      (fun i => (ex.stateOf i).branchHist) (fun i => rfl)
  · rfl

/-- C3 is refuted on the selection rule and the pool key: with a live
set `[0,1,2,3]` where state `0` has a length-5 history and states
`1,2,3` have length-1 histories, the worker surrenders exactly state
`0` — the first quarter in iteration order, not a state of smallest
history length — and the prefix-suspended pool files it under the
canonical form `"00101"` of its history, not under the history string
`"20103"` itself. -/
theorem claim_C3_counterexample :
    ∃ ex' msg,
      newCheck2Offload
        { stateOf := fun i =>
            if i = 0 then { branchHist := ['2', '0', '1', '0', '3'] }
            else { branchHist := ['0'] },
          states := [0, 1, 2, 3], ready2Offload := true } = some (ex', msg) ∧
      ex'.rangingSuspendedStates = [0] ∧
      ex'.states = [1, 2, 3] ∧
      (ex'.stateOf 0).branchHist.length = 5 ∧
      (∀ j ∈ ex'.states, (ex'.stateOf j).branchHist.length = 1) ∧
      (mapRangingSuspendedStates ex').prefixSuspendedStatesMap =
        [(['0', '0', '1', '0', '1'], 0)] ∧
      canonicalHist ['2', '0', '1', '0', '3'] ≠ ['2', '0', '1', '0', '3'] := by
  refine ⟨_, _, rfl, ?_, ?_, ?_, ?_, ?_, ?_⟩ <;> decide

/-- C3 (amended): on an `OFFLOAD` message with the worker ready, not
halting, no pending removals and a non-suspended frontier of 4 to 64
states, the worker surrenders the first quarter of the frontier in the
live set's iteration order (not the quarter with smallest history
length); the reply is the longest common prefix of the surrendered
histories followed by one `'-'`-prefixed private suffix per state; the
surrendered states leave the searcher and the live set and are queued
for ranging suspension, and the next `updateStates` files them in the
prefix-suspended pool keyed by the canonical form of their history
(`'2'`→`'0'`, `'3'`→`'1'`, first writer per key). -/
theorem claim_C3_amended (ex : Exec)
    (hready : ex.ready2Offload = true)
    (hhalt : ex.haltExecution = false)
    (hhm : ex.haltFromMaster = false)
    (hrem : ex.removedStates = [])
    (hrs : ex.rangingSuspendedStates = [])
    (hlen : 4 ≤ (ex.states.filter (fun i => !(ex.stateOf i).suspendStatus)).length)
    (hle : (ex.states.filter (fun i => !(ex.stateOf i).suspendStatus)).length ≤ 64) :
    ∃ ex' lcp,
      lcp = commonPref
        ((offloadKept ex).map (fun i => (ex.stateOf i).branchHist))
        (minHistLen ex (offloadKept ex)) ∧
      offloadKept ex =
        (ex.states.filter (fun i => !(ex.stateOf i).suspendStatus)).take
          ((ex.states.filter (fun i => !(ex.stateOf i).suspendStatus)).length / 4) ∧
      newCheck2Offload ex = some (ex',
        lcp ++ ((offloadKept ex).map (fun i =>
          '-' :: ((ex.stateOf i).branchHist.drop lcp.length))).flatten) ∧
      (∀ i ∈ offloadKept ex, lcp <+: (ex.stateOf i).branchHist) ∧
      (∀ l, (∀ i ∈ offloadKept ex, l <+: (ex.stateOf i).branchHist) →
        l.length ≤ lcp.length) ∧
      ex'.states = (offloadKept ex).foldl (fun s i => s.erase i) ex.states ∧
      ex'.searcherStates =
        ex.searcherStates.filter (fun i => !(offloadKept ex).contains i) ∧
      ex'.rangingSuspendedStates = offloadKept ex ∧
      ex'.removedStates = [] ∧
      ex'.waiting4OffloadReq = false ∧
      (∀ j, ex'.stateOf j = ex.stateOf j) ∧
      (mapRangingSuspendedStates ex').prefixSuspendedStatesMap =
        (offloadKept ex).foldl (fun m i =>
          insertMapNoOverwrite m (canonicalHist ((ex.stateOf i).branchHist)) i)
          ex.prefixSuspendedStatesMap ∧
      (mapRangingSuspendedStates ex').rangingSuspendedStates = [] := by
  have hk : offloadKept ex ≠ [] := by
    have h0 : 0 < (offloadKept ex).length := by
      unfold offloadKept
      rw [List.length_take]
      omega
    exact List.ne_nil_of_length_pos h0
  have hmin : ∀ h ∈ (offloadKept ex).map (fun i => (ex.stateOf i).branchHist),
      0 + minHistLen ex (offloadKept ex) ≤ h.length := by
    intro h hh
    obtain ⟨i, hi, rfl⟩ := List.mem_map.mp hh
    simpa using minHistLen_le ex (offloadKept ex) i hi
  refine ⟨_, _, rfl, rfl,
    newCheck2Offload_spec ex hready hhalt hhm hrem hlen hle,
    ?_, ?_, ?_, ?_, ?_, ?_, ?_, ?_, ?_, ?_⟩
  · intro i hi
    have h := commonPrefFrom_isPrefixAll (minHistLen ex (offloadKept ex))
      ((offloadKept ex).map (fun i => (ex.stateOf i).branchHist)) 0
      ((ex.stateOf i).branchHist) (List.mem_map_of_mem _ hi) hmin
    simpa [commonPref] using h
  · intro l hl
    cases hm : (offloadKept ex).map (fun i => (ex.stateOf i).branchHist) with
    | nil => exact absurd (List.map_eq_nil_iff.mp hm) hk
    | cons h0 rest =>
      have hlen2 : l.length ≤ minHistLen ex (offloadKept ex) :=
        le_minHistLen ex _ _ hk (fun i hi => (hl i hi).length_le)
      have h := commonPrefFrom_longest l (minHistLen ex (offloadKept ex)) 0
        h0 rest ?_ hlen2
      · exact h
      · rw [← hm]
        intro h' hh'
        obtain ⟨i, hi, rfl⟩ := List.mem_map.mp hh'
        simpa using hl i hi
  · rfl
  · rfl
  · dsimp only
    rw [hrs]
    rfl
  · dsimp only
    rw [hrem]
    exact foldl_erase_nil _
  · rfl
  · intro j
    rfl
  · rw [(mapRangingSuspendedStates_spec _).1]
    dsimp only
    rw [hrs]
    rfl
  · exact (mapRangingSuspendedStates_spec _).2

/-- Witness for the amended C3 at a four-state frontier: the first
quarter (exactly state `0`) is surrendered and leaves the live set. -/
theorem claim_C3_amended_witness :
    ∃ ex' msg,
      newCheck2Offload
        { stateOf := fun i =>
            if i = 0 then { branchHist := ['0', '1'] }
            else { branchHist := ['0'] },
          states := [0, 1, 2, 3], ready2Offload := true } = some (ex', msg) ∧
      ex'.rangingSuspendedStates = [0] ∧
      ex'.states = [1, 2, 3] := by
  obtain ⟨ex', lcp, hlcp, hkept, hmsg, _, _, hstates, _, hrang, _, _, _, _, _⟩ :=
    claim_C3_amended
      { stateOf := fun i =>
          if i = 0 then { branchHist := ['0', '1'] }
          else { branchHist := ['0'] },
        states := [0, 1, 2, 3], ready2Offload := true }
      rfl rfl rfl rfl rfl (by decide) (by decide)
  refine ⟨ex', _, hmsg, ?_, ?_⟩
  · rw [hrang, hkept]
    decide
  · rw [hstates]
    decide

/-! ### Claim C8: the BFS-by-depth searcher -/

theorem mem_setA {α β : Type} [DecidableEq α] (m : List (α × β)) (k : α)
    (v : β) (p : α × β) (hp : p ∈ setA m k v) : p = (k, v) ∨ p ∈ m := by
  induction m with
  | nil => simpa [setA] using hp
  | cons q rest ih =>
    simp only [setA] at hp
    by_cases hq : q.1 = k
    · rw [if_pos hq] at hp
      rcases List.mem_cons.mp hp with h | h
      · exact Or.inl h
      · exact Or.inr (List.mem_cons_of_mem _ h)
    · rw [if_neg hq] at hp
      rcases List.mem_cons.mp hp with h | h
      · exact Or.inr (by simp [h])
      · rcases ih h with h1 | h1
        · exact Or.inl h1
        · exact Or.inr (List.mem_cons_of_mem _ h1)

theorem mem_eraseA {α β : Type} [DecidableEq α] (m : List (α × β)) (k : α)
    (p : α × β) (hp : p ∈ eraseA m k) : p ∈ m := by
  induction m with
  | nil =>
    simp [eraseA] at hp
  | cons q rest ih =>
    simp only [eraseA] at hp
    by_cases hq : q.1 = k
    · rw [if_pos hq] at hp
      exact List.mem_cons_of_mem _ hp
    · rw [if_neg hq] at hp
      rcases List.mem_cons.mp hp with h | h
      · simp [h]
      · exact List.mem_cons_of_mem _ (ih h)

theorem keys_setA_of_mem {α β : Type} [DecidableEq α] (m : List (α × β))
    (k : α) (v : β) (hk : k ∈ m.map Prod.fst) :
    (setA m k v).map Prod.fst = m.map Prod.fst := by
  induction m with
  | nil => simp at hk
  | cons q rest ih =>
    simp only [setA]
    by_cases hq : q.1 = k
    · rw [if_pos hq]
      simp [hq]
    · rw [if_neg hq]
      simp only [List.map_cons, List.mem_cons] at hk
      rcases hk with h | h
      · exact absurd h.symm hq
      · simp [ih h]

theorem keys_setA_of_not_mem {α β : Type} [DecidableEq α]
    (m : List (α × β)) (k : α) (v : β) (hk : k ∉ m.map Prod.fst) :
    (setA m k v).map Prod.fst = m.map Prod.fst ++ [k] := by
  induction m with
  | nil => simp [setA]
  | cons q rest ih =>
    simp only [List.map_cons, List.mem_cons, not_or] at hk
    simp only [setA]
    rw [if_neg (fun h => hk.1 h.symm)]
    simp [ih hk.2]

theorem lookupA_isSome_of_mem_keys {α β : Type} [DecidableEq α]
    (m : List (α × β)) (k : α) (hk : k ∈ m.map Prod.fst) :
    (lookupA m k).isSome = true := by
  induction m with
  | nil => simp at hk
  | cons q rest ih =>
    simp only [List.map_cons, List.mem_cons] at hk
    by_cases hq : q.1 = k
    · simp [lookupA, hq]
    · rcases hk with h | h
      · exact absurd h.symm hq
      · simp [lookupA, hq, ih h]

theorem not_mem_keys_of_lookupA_none {α β : Type} [DecidableEq α]
    (m : List (α × β)) (k : α) (h : lookupA m k = none) :
    k ∉ m.map Prod.fst := by
  intro hk
  have h2 := lookupA_isSome_of_mem_keys m k hk
  rw [h] at h2
  simp at h2

theorem keys_eraseA_sublist {α β : Type} [DecidableEq α]
    (m : List (α × β)) (k : α) :
    ((eraseA m k).map Prod.fst).Sublist (m.map Prod.fst) := by
  induction m with
  | nil => simp [eraseA]
  | cons q rest ih =>
    simp only [eraseA]
    by_cases hq : q.1 = k
    · rw [if_pos hq]
      simp only [List.map_cons]
      exact List.sublist_cons_self _ _
    · rw [if_neg hq]
      simp only [List.map_cons]
      exact List.Sublist.cons₂ _ ih

theorem not_mem_keys_eraseA {α β : Type} [DecidableEq α]
    (m : List (α × β)) (k : α) (hnd : (m.map Prod.fst).Nodup) :
    k ∉ (eraseA m k).map Prod.fst := by
  induction m with
  | nil => simp [eraseA]
  | cons q rest ih =>
    simp only [List.map_cons, List.nodup_cons] at hnd
    simp only [eraseA]
    by_cases hq : q.1 = k
    · rw [if_pos hq]
      rw [← hq]
      exact hnd.1
    · rw [if_neg hq]
      simp only [List.map_cons, List.mem_cons, not_or]
      exact ⟨fun h => hq h.symm, ih hnd.2⟩

theorem fst_ne_of_mem_eraseA {α β : Type} [DecidableEq α]
    (m : List (α × β)) (k : α) (p : α × β)
    (hnd : (m.map Prod.fst).Nodup) (hp : p ∈ eraseA m k) : p.1 ≠ k := by
  intro he
  have hm : p.1 ∈ (eraseA m k).map Prod.fst := List.mem_map_of_mem Prod.fst hp
  rw [he] at hm
  exact not_mem_keys_eraseA m k hnd hm

theorem minKeyAbove_cons (c : Nat) (rest : List Nat) (d : Nat) :
    BFSSearcher.minKeyAbove (c :: rest) d =
      if d < c then
        match BFSSearcher.minKeyAbove rest d with
        | none => some c
        | some m => some (min c m)
      else BFSSearcher.minKeyAbove rest d := rfl

theorem minKeyAbove_none (keys : List Nat) (d : Nat) :
    BFSSearcher.minKeyAbove keys d = none → ∀ k ∈ keys, ¬ d < k := by
  induction keys with
  | nil =>
    intro h k hk
    cases hk
  | cons c rest ih =>
    intro h k hk
    rw [minKeyAbove_cons] at h
    by_cases hc : d < c
    · rw [if_pos hc] at h
      cases hrec : BFSSearcher.minKeyAbove rest d with
      | none =>
        rw [hrec] at h
        simp at h
      | some m =>
        rw [hrec] at h
        simp at h
    · rw [if_neg hc] at h
      rcases List.mem_cons.mp hk with h1 | h1
      · subst h1
        exact hc
      · exact ih h k h1

theorem minKeyAbove_spec (keys : List Nat) (d : Nat) :
    ∀ k, BFSSearcher.minKeyAbove keys d = some k →
      k ∈ keys ∧ d < k ∧ ∀ k' ∈ keys, d < k' → k ≤ k' := by
  induction keys with
  | nil =>
    intro k h
    simp [BFSSearcher.minKeyAbove] at h
  | cons c rest ih =>
    intro k h
    rw [minKeyAbove_cons] at h
    by_cases hc : d < c
    · rw [if_pos hc] at h
      cases hrec : BFSSearcher.minKeyAbove rest d with
      | none =>
        rw [hrec] at h
        dsimp only at h
        injection h with h
        subst h
        refine ⟨by simp, hc, ?_⟩
        intro k' hk' hdk'
        rcases List.mem_cons.mp hk' with h1 | h1
        · subst h1
          exact le_refl _
        · exact absurd hdk' (minKeyAbove_none rest d hrec k' h1)
      | some m =>
        rw [hrec] at h
        dsimp only at h
        injection h with h
        subst h
        obtain ⟨hm1, hm2, hm3⟩ := ih m hrec
        refine ⟨?_, lt_min hc hm2, ?_⟩
        · rcases le_total c m with hcm | hcm
          · simp [min_eq_left hcm]
          · rw [min_eq_right hcm]
            exact List.mem_cons_of_mem _ hm1
        · intro k' hk' hdk'
          rcases List.mem_cons.mp hk' with h1 | h1
          · subst h1
            exact min_le_left _ _
          · exact le_trans (min_le_right _ _) (hm3 k' h1 hdk')
    · rw [if_neg hc] at h
      obtain ⟨hm1, hm2, hm3⟩ := ih k h
      refine ⟨List.mem_cons_of_mem _ hm1, hm2, ?_⟩
      intro k' hk' hdk'
      rcases List.mem_cons.mp hk' with h1 | h1
      · subst h1
        exact absurd hdk' hc
      · exact hm3 k' h1 hdk'

/-- `BFSSearcher::insertIntoDepthStateMap` preserves the minimality
data, provided the state-depth map and the bucket map are empty
together (as the searcher keeps them). -/
theorem insertIntoDepthStateMap_inv (dOf : Nat → Nat) (b : BFSSearcher)
    (c : Nat) (hinv : BMinInv b)
    (hsync : b.depthMap = [] ↔ b.depthStatesMap = []) :
    BMinInv (BFSSearcher.insertIntoDepthStateMap dOf b c) := by
  obtain ⟨st, dm, dsm, cur⟩ := b
  obtain ⟨hnd, hmin, hcur⟩ := hinv
  dsimp only at hnd hmin hcur hsync
  unfold BFSSearcher.insertIntoDepthStateMap
  dsimp only
  simp only [apply_ite BFSSearcher.depthMap, apply_ite BFSSearcher.depthStatesMap,
    apply_ite BFSSearcher.currentMinDepth, ite_self]
  cases hlk : lookupA dsm (dOf c) with
  | none =>
    have hknotin := not_mem_keys_of_lookupA_none dsm (dOf c) hlk
    dsimp only
    by_cases hdm : dm = []
    · have hds : dsm = [] := hsync.mp hdm
      subst hds
      simp only [hdm, ite_true]
      rw [if_neg (lt_irrefl _)]
      refine ⟨by simp [setA], ?_, by intro h; simp [setA, lookupA]⟩
      intro p hp
      simp [setA] at hp
      subst hp
      exact ⟨le_refl _, by simp⟩
    · simp only [hdm, ite_false]
      by_cases hgt : cur > dOf c
      · rw [if_pos hgt]
        refine ⟨?_, ?_, ?_⟩
        · dsimp only
          rw [keys_setA_of_not_mem _ _ _ hknotin]
          simp [List.nodup_append, hnd, hknotin]
        · intro p hp
          dsimp only at hp ⊢
          rcases mem_setA _ _ _ _ hp with h | h
          · subst h
            exact ⟨le_refl _, by simp⟩
          · exact ⟨le_trans (le_of_lt hgt) (hmin p h).1, (hmin p h).2⟩
        · intro _
          dsimp only
          rw [lookupA_setA_self]
          rfl
      · rw [if_neg hgt]
        have hle : cur ≤ dOf c := le_of_not_lt hgt
        refine ⟨?_, ?_, ?_⟩
        · dsimp only
          rw [keys_setA_of_not_mem _ _ _ hknotin]
          simp [List.nodup_append, hnd, hknotin]
        · intro p hp
          dsimp only at hp ⊢
          rcases mem_setA _ _ _ _ hp with h | h
          · subst h
            exact ⟨hle, by simp⟩
          · exact hmin p h
        · intro _
          dsimp only
          have hdsne : dsm ≠ [] := fun h => hdm (hsync.mpr h)
          have hsome := hcur hdsne
          have hne : cur ≠ dOf c := by
            intro he
            rw [he, hlk] at hsome
            simp at hsome
          rw [lookupA_setA_ne _ _ _ _ hne]
          exact hsome
  | some l =>
    have hmem : (dOf c, l) ∈ dsm := mem_of_lookupA _ _ _ hlk
    have hkin : dOf c ∈ dsm.map Prod.fst := List.mem_map_of_mem Prod.fst hmem
    have hdsne : dsm ≠ [] := List.ne_nil_of_mem hmem
    have hdm : ¬ dm = [] := fun h => hdsne (hsync.mp h)
    dsimp only
    simp only [hdm, ite_false]
    refine ⟨?_, ?_, ?_⟩
    · dsimp only
      rw [keys_setA_of_mem _ _ _ hkin]
      exact hnd
    · intro p hp
      dsimp only at hp ⊢
      rcases mem_setA _ _ _ _ hp with h | h
      · subst h
        exact ⟨(hmin _ hmem).1, by simp⟩
      · exact hmin p h
    · intro _
      dsimp only
      by_cases he : cur = dOf c
      · rw [he, lookupA_setA_self]
        rfl
      · rw [lookupA_setA_ne _ _ _ _ he]
        exact hcur hdsne

/-- `BFSSearcher::removeFromDepthStateMap`, when it succeeds, preserves
the minimality data: its upward rescan lands on the least populated
depth whenever the bucket at `currentMinDepth` empties. -/
theorem removeFromDepthStateMap_inv (b b' : BFSSearcher) (c : Nat)
    (hinv : BMinInv b)
    (hrm : BFSSearcher.removeFromDepthStateMap b c = some b') :
    BMinInv b' := by
  obtain ⟨st, dm, dsm, cur⟩ := b
  obtain ⟨hnd, hmin, hcur⟩ := hinv
  dsimp only at hnd hmin hcur
  unfold BFSSearcher.removeFromDepthStateMap at hrm
  dsimp only at hrm
  by_cases hcs : c ∉ st
  · rw [if_pos hcs] at hrm
    exact absurd hrm (by simp)
  · rw [if_neg hcs] at hrm
    cases hlk : lookupA dsm ((lookupA dm c).getD 0) with
    | none =>
      rw [hlk] at hrm
      exact absurd hrm (by simp)
    | some l =>
      rw [hlk] at hrm
      try dsimp only at hrm
      have hmem : ((lookupA dm c).getD 0, l) ∈ dsm := mem_of_lookupA _ _ _ hlk
      have hdsne : dsm ≠ [] := List.ne_nil_of_mem hmem
      by_cases hcl : c ∉ l
      · rw [if_pos hcl] at hrm
        exact absurd hrm (by simp)
      · rw [if_neg hcl] at hrm
        try dsimp only at hrm
        by_cases hle : l.erase c = []
        · rw [if_pos hle] at hrm
          try dsimp only at hrm
          by_cases hoc : (lookupA dm c).getD 0 = cur
          · rw [if_pos hoc] at hrm
            cases hmk : BFSSearcher.minKeyAbove
                ((eraseA dsm ((lookupA dm c).getD 0)).map Prod.fst) cur with
            | none =>
              rw [hmk] at hrm
              exact absurd hrm (by simp)
            | some k =>
              rw [hmk] at hrm
              try dsimp only at hrm
              injection hrm with hrm
              subst hrm
              obtain ⟨hk1, hk2, hk3⟩ := minKeyAbove_spec _ _ k hmk
              refine ⟨?_, ?_, ?_⟩
              · exact hnd.sublist (keys_eraseA_sublist dsm _)
              · intro p hp
                dsimp only at hp ⊢
                have hpm := mem_eraseA _ _ _ hp
                have hne := fst_ne_of_mem_eraseA _ _ _ hnd hp
                have hlt : cur < p.1 :=
                  lt_of_le_of_ne (hmin p hpm).1
                    (fun h => hne (by rw [← h]; exact hoc.symm))
                exact ⟨hk3 p.1 (List.mem_map_of_mem Prod.fst hp) hlt,
                  (hmin p hpm).2⟩
              · intro _
                dsimp only
                exact lookupA_isSome_of_mem_keys _ _ hk1
          · rw [if_neg hoc] at hrm
            try dsimp only at hrm
            injection hrm with hrm
            subst hrm
            refine ⟨?_, ?_, ?_⟩
            · exact hnd.sublist (keys_eraseA_sublist dsm _)
            · intro p hp
              exact hmin p (mem_eraseA _ _ _ hp)
            · intro _
              dsimp only
              rw [lookupA_eraseA_ne _ _ _ (fun h => hoc h.symm)]
              exact hcur hdsne
        · rw [if_neg hle] at hrm
          try dsimp only at hrm
          injection hrm with hrm
          subst hrm
          refine ⟨?_, ?_, ?_⟩
          · dsimp only
            rw [keys_setA_of_mem _ _ _ (List.mem_map_of_mem Prod.fst hmem)]
            exact hnd
          · intro p hp
            dsimp only at hp ⊢
            rcases mem_setA _ _ _ _ hp with h | h
            · subst h
              exact ⟨(hmin _ hmem).1, hle⟩
            · exact hmin p h
          · intro _
            dsimp only
            by_cases he : cur = (lookupA dm c).getD 0
            · rw [he, lookupA_setA_self]
              rfl
            · rw [lookupA_setA_ne _ _ _ _ he]
              exact hcur hdsne

theorem selectState_bucket (b : BFSSearcher) (s : Nat)
    (h : BFSSearcher.selectState b = some s) :
    ∃ l, lookupA b.depthStatesMap b.currentMinDepth = some l ∧
      l.head? = some s := by
  unfold BFSSearcher.selectState at h
  cases hlk : lookupA b.depthStatesMap b.currentMinDepth with
  | none =>
    rw [hlk] at h
    exact absurd h (by simp)
  | some l =>
    rw [hlk] at h
    dsimp only at h
    exact ⟨l, rfl, h⟩

/-- C8 is refuted: insert state `0` at depth 5 and state `1` at depth
2, then report a depth change of state `0` from 5 to 6 through
`update`.  `updateDepthStateMap` empties the old bucket of `0` and,
since `currentMinDepth ≤ 5`, sets `currentMinDepth` to the NEW depth 6
even though the bucket at depth 2 is still populated; `selectState`
then returns state `0` of depth 6 while state `1` of depth 2 is held,
so `currentMinDepth` is not the minimum depth and the selected state is
not of minimal depth. -/
theorem claim_C8_counterexample :
    ∃ b1 b2 b3 : BFSSearcher,
      BFSSearcher.update (fun i => if i = 0 then 5 else 2) {} none [0] [] =
        some b1 ∧
      BFSSearcher.update (fun i => if i = 0 then 5 else 2) b1 none [1] [] =
        some b2 ∧
      BFSSearcher.update (fun i => if i = 0 then 6 else 2) b2 (some 0) [] [] =
        some b3 ∧
      BFSSearcher.selectState b3 = some 0 ∧
      lookupA b3.depthMap 0 = some 6 ∧
      1 ∈ BFSSearcher.heldStates b3 ∧
      lookupA b3.depthMap 1 = some 2 ∧
      b3.currentMinDepth = 6 := by
  refine ⟨⟨[0], [(0, 5)], [(5, [0])], 5⟩,
    ⟨[0, 1], [(0, 5), (1, 2)], [(5, [0]), (2, [1])], 2⟩,
    ⟨[0, 1], [(0, 6), (1, 2)], [(2, [1]), (6, [0])], 6⟩,
    ?_, ?_, ?_, ?_, ?_, ?_, ?_, ?_⟩ <;> decide

/-- C8 (amended): `selectState` always answers from the deque at
`currentMinDepth`, and both insertion and removal preserve the
minimality data `BMinInv` (distinct nonempty buckets no shallower than
`currentMinDepth`, with a bucket at `currentMinDepth`), so under those
two operations the selected state has minimal depth; the depth-change
path `updateDepthStateMap`, by contrast, can set `currentMinDepth`
above a still-populated bucket (see the counterexample), so the claimed
minimality does not hold for arbitrary update sequences. -/
theorem claim_C8_amended (dOf : Nat → Nat) (b b' : BFSSearcher) (c s : Nat)
    (hinv : BMinInv b) :
    (BFSSearcher.selectState b = some s →
      ∃ l, lookupA b.depthStatesMap b.currentMinDepth = some l ∧
        l.head? = some s ∧ s ∈ l ∧
        ∀ p ∈ b.depthStatesMap, b.currentMinDepth ≤ p.1) ∧
    ((b.depthMap = [] ↔ b.depthStatesMap = []) →
      BMinInv (BFSSearcher.insertIntoDepthStateMap dOf b c)) ∧
    (BFSSearcher.removeFromDepthStateMap b c = some b' → BMinInv b') := by
  refine ⟨?_, fun hsync => insertIntoDepthStateMap_inv dOf b c hinv hsync,
    fun hrm => removeFromDepthStateMap_inv b b' c hinv hrm⟩
  intro h
  obtain ⟨l, hl, hh⟩ := selectState_bucket b s h
  refine ⟨l, hl, hh, ?_, fun p hp => (hinv.2.1 p hp).1⟩
  cases l with
  | nil => simp at hh
  | cons a t =>
    simp only [List.head?_cons, Option.some.injEq] at hh
    simp [hh]

/-- Witness for the amended C8: a two-bucket searcher satisfying
`BMinInv`, from which removing state `0` (emptying the bucket at the
minimum) rescans to the next populated depth and keeps `BMinInv`. -/
theorem claim_C8_amended_witness :
    BMinInv ⟨[0, 1], [(0, 2), (1, 3)], [(2, [0]), (3, [1])], 2⟩ ∧
    BMinInv ⟨[1], [(1, 3)], [(3, [1])], 3⟩ := by
  have h := claim_C8_amended (fun _ => 2)
    ⟨[0, 1], [(0, 2), (1, 3)], [(2, [0]), (3, [1])], 2⟩
    ⟨[1], [(1, 3)], [(3, [1])], 3⟩ 0 0 (by decide)
  exact ⟨by decide, h.2.2 (by decide)⟩

end PChop
